import Mathlib

/-! Snake C++ : a shallow embedding of the simulation core

The definitions below follow `src/Snake CPP/Snake CPP.cpp` function by function.

* C++ `int` coordinates are modelled by `Int`.  Every `Pixel` built by the
  two-argument constructor has both coordinates at most `_gridSize`, and every
  snake of the running game stays inside the grid, so no increment or decrement
  performed by the program gets anywhere near the limits of a 32-bit `int`.
* `std::list<Pixel>` is modelled by `List Pixel`, front of the list first:
  `push_back p` is `l ++ [p]`, `push_front p` is `p :: l`, `pop_front` is `List.tail`.
* A member function that mutates `this` and returns a value returns the pair of the
  value and the new object.
* `rand()` is modelled by the list of the values its successive calls return.
* Within a class the methods come before the constructor, which bears the name of the
  class as in the source.
* The mutable globals `snake`, `berry`, `direction`, `newDirection`, `gameOver` are the
  fields of `Game`; the global `border` is never assigned and is a constant.
-/

set_option linter.dupNamespace false
set_option maxRecDepth 100000

/-! ## Configuration variables -/

def _gridSize : Int := 32

def _snakeSize : Int := 5

/-! ## Game classes -/

structure Pixel where
  x : Int
  y : Int
  deriving DecidableEq, Repr

/-- The method `bool Pixel::equals(Pixel pixel)`. -/
def Pixel.equals (self pixel : Pixel) : Bool :=
  pixel.x == self.x && pixel.y == self.y

/-- The constructor `Pixel(int x, int y)`: each coordinate is capped at `_gridSize`;
there is no lower cap. -/
def Pixel.Pixel (x y : Int) : Pixel :=
  { x := if x > _gridSize then _gridSize else x
    y := if y > _gridSize then _gridSize else y }

structure Border where
  borderPixels : List Pixel
  deriving DecidableEq, Repr

/-- One iteration of the loop of the `Border` constructor, for loop variable `i`. -/
def Border.loopBody (size : Int) (borderPixels : List Pixel) (i : Int) : List Pixel :=
  -- Border in width
  let borderPixels := borderPixels ++ [Pixel.Pixel i 0]
  let borderPixels := borderPixels ++ [Pixel.Pixel i (size - 1)]
  -- Border in height
  if i = 0 ∨ i = size - 1 then borderPixels
  else
    let borderPixels := borderPixels ++ [Pixel.Pixel 0 i]
    borderPixels ++ [Pixel.Pixel (size - 1) i]

/-- The method `bool Border::contains(Pixel pixel)`. -/
def Border.contains (self : Border) (pixel : Pixel) : Bool :=
  self.borderPixels.any (fun p => p.equals pixel)

/-- The constructor `Border(int size)`: the loop `for (int i = 0; i <= size - 1; i++)`
runs for `i = 0, 1, ..., size - 1` (not at all when `size ≤ 0`). -/
def Border.Border (size : Int) : Border :=
  { borderPixels :=
      (List.range size.toNat).foldl (fun acc (i : Nat) => Border.loopBody size acc (i : Int)) [] }

inductive SnakeDirection where
  | Up
  | Down
  | Left
  | Right
  deriving DecidableEq, Repr

open SnakeDirection

structure Snake where
  bodyPixels : List Pixel
  headPixel : Pixel
  deriving DecidableEq, Repr

/-- The method `bool Snake::contains(Pixel pixel)`. -/
def Snake.contains (self : Snake) (pixel : Pixel) : Bool :=
  if self.headPixel.equals pixel then true
  else self.bodyPixels.any (fun p => p.equals pixel)

/-- The local `newHead` of `Snake::move`: the head offset by one unit in `direction`,
passed through the `Pixel` constructor. -/
def Snake.newHead (self : Snake) (direction : SnakeDirection) : Pixel :=
  let x := self.headPixel.x
  let y := self.headPixel.y
  if direction = Up then Pixel.Pixel x (y - 1)
  else if direction = Right then Pixel.Pixel (x + 1) y
  else if direction = Down then Pixel.Pixel x (y + 1)
  else if direction = Left then Pixel.Pixel (x - 1) y
  else Pixel.Pixel x y

/-- The method `bool Snake::move(SnakeDirection direction, Border border)`: the returned
flag together with the snake after the call. -/
def Snake.move (self : Snake) (direction : SnakeDirection) (border : Border) : Bool × Snake :=
  let newHead := self.newHead direction
  if self.contains newHead then (false, self)
  else if border.contains newHead then (false, self)
  else
    (true,
      { bodyPixels := (self.bodyPixels ++ [self.headPixel]).tail
        headPixel := newHead })

/-- The method `void Snake::grow()`.  `bodyPixels.front()` of an empty list is undefined
behaviour in C++: the model gives `none` there. -/
def Snake.grow (self : Snake) : Option Snake :=
  match self.bodyPixels with
  | [] => none
  | front :: rest =>
      let newBody := Pixel.Pixel front.x front.y
      some { self with bodyPixels := newBody :: front :: rest }

/-- The method `int Snake::getSize()`. -/
def Snake.getSize (self : Snake) : Int :=
  (self.bodyPixels.length : Int) + 1

/-- The constructor `Snake(int size)`.  `size / 2` is C++ integer division (truncating);
the loop `for (int i = size - 1; i > 0; i--)` runs for `i = size - 1, ..., 1`, which is
`i = k + 1` for `k = size - 2, ..., 0`. -/
def Snake.Snake (size : Int) : Snake :=
  let headPixel := Pixel.Pixel (Int.tdiv _gridSize 2 + Int.tdiv size 2) (Int.tdiv _gridSize 2 - 1)
  { headPixel := headPixel
    bodyPixels :=
      ((List.range (size - 1).toNat).reverse).foldl
        (fun acc (k : Nat) => acc ++ [Pixel.Pixel (headPixel.x - ((k : Int) + 1)) headPixel.y])
        [] }

structure Berry where
  position : Pixel
  deriving DecidableEq, Repr

/-- The constructor `Berry(Snake snake)`.  The argument list holds the values returned by
the successive calls of `rand()` (non-negative integers); each round of the `do ... while`
loop consumes two of them.  The result is `none` when the values run out before a round
ends with a free cell, that is when the loop does not end on these values. -/
def Berry.Berry (snake : Snake) : List Nat → Option Berry
  | r1 :: r2 :: rest =>
      let min : Int := 1
      let max : Int := _gridSize - 2
      let randX : Int := (r1 : Int) % (max - min + 1) + min
      let randY : Int := (r2 : Int) % (max - min + 1) + min
      let position := Pixel.Pixel randX randY
      if snake.contains position then Berry.Berry snake rest else some { position := position }
  | _ => none

/-! ## Game variables -/

/-- The global `Border border(_gridSize)`; the program never assigns it. -/
def border : Border := Border.Border _gridSize

/-- The mutable globals of the program. -/
structure Game where
  snake : Snake
  berry : Berry
  direction : SnakeDirection
  newDirection : SnakeDirection
  gameOver : Bool
  deriving DecidableEq, Repr

/-- The globals after static initialisation; `rands` are the values `rand()` gives to the
constructor of the global `berry`. -/
def initialGame (rands : List Nat) : Option Game :=
  let snake := Snake.Snake _snakeSize
  match Berry.Berry snake rands with
  | none => none
  | some berry =>
      let direction := Right
      some { snake := snake, berry := berry, direction := direction,
             newDirection := direction, gameOver := false }

/-- The function `void keyPressed(SnakeDirection key)`. -/
def keyPressed (g : Game) (key : SnakeDirection) : Game :=
  if g.gameOver then g
  else
    match key with
    | Up => if g.direction = Down then g else { g with newDirection := Up }
    | Down => if g.direction = Up then g else { g with newDirection := Down }
    | Left => if g.direction = Right then g else { g with newDirection := Left }
    | Right => if g.direction = Left then g else { g with newDirection := Right }

/-- Ways in which a call of `tick()` can fail to end in a defined state. -/
inductive Fault where
  /-- The sampling loop of the `Berry` constructor does not end on the given values. -/
  | spawnDoesNotEnd
  /-- The call `bodyPixels.front()` in `Snake::grow` on an empty list. -/
  | frontOfEmptyBody
  deriving DecidableEq, Repr

/-- The function `void tick()`; `rands` are the values `rand()` gives to the `Berry`
constructor, should this tick call it. -/
def tick (g : Game) (rands : List Nat) : Except Fault Game :=
  let g := { g with direction := g.newDirection }
  -- Move snake and check if it actually moved
  match g.snake.move g.direction border with
  | (false, snake) =>
      -- Game over
      .ok { g with snake := snake, gameOver := true }
  | (true, snake) =>
      -- Check if snake got the berry
      if snake.contains g.berry.position then
        match Berry.Berry snake rands with
        | none => .error Fault.spawnDoesNotEnd
        | some berry =>
            match snake.grow with
            | none => .error Fault.frontOfEmptyBody
            | some snake => .ok { g with snake := snake, berry := berry }
      else .ok { g with snake := snake }

/-- The score shown on the game-over screen: `snake.getSize() - _snakeSize`. -/
def score (g : Game) : Int :=
  g.snake.getSize - _snakeSize

/-! ## Reachable states and vocabulary of the specification -/

/-- An input event of the main loop: a key press or an elapsed tick interval (with the
values `rand()` would give during that tick). -/
inductive Event where
  | key (k : SnakeDirection)
  | tick (rands : List Nat)
  deriving DecidableEq, Repr

/-- One event applied to the globals. -/
def step (g : Game) : Event → Except Fault Game
  | Event.key k => .ok (keyPressed g k)
  | Event.tick rands => tick g rands

/-- A finite sequence of events applied in order. -/
def run (g : Game) : List Event → Except Fault Game
  | [] => .ok g
  | e :: es =>
      match step g e with
      | .ok g1 => run g1 es
      | .error f => .error f

/-- The states the running program can be in: the initial globals, and what any finite
sequence of `keyPressed` and `tick` calls makes of them. -/
inductive Reachable : Game → Prop where
  | init (rands : List Nat) (g : Game) (h : initialGame rands = some g) : Reachable g
  | key (g : Game) (k : SnakeDirection) (h : Reachable g) : Reachable (keyPressed g k)
  | tick (g : Game) (rands : List Nat) (g1 : Game) (h : Reachable g)
      (ht : tick g rands = .ok g1) : Reachable g1

/-- The exact opposite of a direction: Up/Down and Left/Right are the opposite pairs. -/
def SnakeDirection.opposite : SnakeDirection → SnakeDirection
  | Up => Down
  | Down => Up
  | Left => Right
  | Right => Left

/-- The cell one unit from `p` in direction `d`, before any clamping
(Up: y-1, Down: y+1, Left: x-1, Right: x+1). -/
def offsetCell (p : Pixel) : SnakeDirection → Pixel
  | Up => { x := p.x, y := p.y - 1 }
  | Down => { x := p.x, y := p.y + 1 }
  | Left => { x := p.x - 1, y := p.y }
  | Right => { x := p.x + 1, y := p.y }

/-- A perimeter cell of the square grid of side `size`: both coordinates in
`[0, size-1]` and at least one of them `0` or `size-1`. -/
def isPerimeter (size : Int) (c : Pixel) : Prop :=
  (0 ≤ c.x ∧ c.x ≤ size - 1 ∧ 0 ≤ c.y ∧ c.y ≤ size - 1) ∧
    (c.x = 0 ∨ c.x = size - 1 ∨ c.y = 0 ∨ c.y = size - 1)

/-! ## Basic facts about cells and membership tests -/

theorem Pixel_equals_iff (p q : Pixel) : p.equals q = true ↔ p = q := by
  cases p; cases q
  simp only [Pixel.equals, Bool.and_eq_true, beq_iff_eq, Pixel.mk.injEq]
  constructor
  · rintro ⟨h1, h2⟩; exact ⟨h1.symm, h2.symm⟩
  · rintro ⟨h1, h2⟩; exact ⟨h1.symm, h2.symm⟩

theorem Border_contains_iff (b : Border) (c : Pixel) :
    b.contains c = true ↔ c ∈ b.borderPixels := by
  simp only [Border.contains, List.any_eq_true, Pixel_equals_iff]
  constructor
  · rintro ⟨p, hp, rfl⟩; exact hp
  · intro h; exact ⟨c, h, rfl⟩

theorem Snake_contains_iff (s : Snake) (c : Pixel) :
    s.contains c = true ↔ c = s.headPixel ∨ c ∈ s.bodyPixels := by
  unfold Snake.contains
  by_cases hh : s.headPixel.equals c = true
  · simp only [hh, if_true, true_iff]
    exact Or.inl ((Pixel_equals_iff _ _).1 hh).symm
  · simp only [hh, Bool.false_eq_true, if_false, List.any_eq_true, Pixel_equals_iff]
    have hne : c ≠ s.headPixel := fun h => hh ((Pixel_equals_iff _ _).2 h.symm)
    constructor
    · rintro ⟨p, hp, rfl⟩; exact Or.inr hp
    · rintro (h | h)
      · exact absurd h hne
      · exact ⟨c, h, rfl⟩

theorem Snake_contains_false_iff (s : Snake) (c : Pixel) :
    s.contains c = false ↔ c ≠ s.headPixel ∧ c ∉ s.bodyPixels := by
  rw [← Bool.not_eq_true, Snake_contains_iff]
  tauto

/-! ## Input buffering -/

/-- C1: a key that is the exact opposite of the committed direction leaves the pending
direction as it was, in every game state. -/
theorem keyPressed_opposite_keeps_pending (g : Game) (d : SnakeDirection)
    (h : d = g.direction.opposite) :
    (keyPressed g d).newDirection = g.newDirection := by
  subst h
  unfold keyPressed
  cases hg : g.gameOver <;> cases hd : g.direction <;> simp [SnakeDirection.opposite]

theorem keyPressed_opposite_keeps_pending_witness :
    Down = ({ snake := Snake.Snake 5, berry := { position := { x := 3, y := 3 } },
              direction := Up, newDirection := Left, gameOver := false } : Game).direction.opposite ∧
    (keyPressed { snake := Snake.Snake 5, berry := { position := { x := 3, y := 3 } },
                  direction := Up, newDirection := Left, gameOver := false } Down).newDirection
      = Left :=
  ⟨rfl, keyPressed_opposite_keeps_pending _ Down rfl⟩

/-! ## The three ways a tick can end -/

/-- A tick that ends does so in one of three ways: the move was rejected; the move
succeeded away from the berry; the move succeeded, a new berry was spawned and the snake
grew. -/
theorem tick_ok_cases (g : Game) (rands : List Nat) (g1 : Game) (h : tick g rands = .ok g1) :
    ((g.snake.move g.newDirection border).1 = false ∧
      g1 = { g with direction := g.newDirection,
                    snake := (g.snake.move g.newDirection border).2, gameOver := true }) ∨
    ((g.snake.move g.newDirection border).1 = true ∧
      (g.snake.move g.newDirection border).2.contains g.berry.position = false ∧
      g1 = { g with direction := g.newDirection,
                    snake := (g.snake.move g.newDirection border).2 }) ∨
    ((g.snake.move g.newDirection border).1 = true ∧
      (g.snake.move g.newDirection border).2.contains g.berry.position = true ∧
      ∃ b s1, Berry.Berry (g.snake.move g.newDirection border).2 rands = some b ∧
        (g.snake.move g.newDirection border).2.grow = some s1 ∧
        g1 = { g with direction := g.newDirection, snake := s1, berry := b }) := by
  unfold tick at h
  simp only at h
  rcases hm : g.snake.move g.newDirection border with ⟨ok, s⟩
  rw [hm] at h
  cases ok
  · left
    simp only at h
    injection h with h
    exact ⟨rfl, h.symm⟩
  · right
    simp only at h
    by_cases hc : s.contains g.berry.position = true
    · right
      rw [if_pos hc] at h
      refine ⟨rfl, hc, ?_⟩
      cases hb : Berry.Berry s rands with
      | none => rw [hb] at h; simp at h
      | some b =>
        rw [hb] at h
        cases hgr : s.grow with
        | none => rw [hgr] at h; simp at h
        | some s1 =>
          rw [hgr] at h
          simp only at h
          injection h with h
          exact ⟨b, s1, rfl, rfl, h.symm⟩
    · left
      rw [if_neg hc] at h
      injection h with h
      exact ⟨rfl, by simpa using hc, h.symm⟩

theorem tick_directions (g : Game) (rands : List Nat) (g1 : Game) (h : tick g rands = .ok g1) :
    g1.direction = g.newDirection ∧ g1.newDirection = g.newDirection := by
  rcases tick_ok_cases g rands g1 h with ⟨-, rfl⟩ | ⟨-, -, rfl⟩ | ⟨-, -, b, s1, -, -, rfl⟩ <;>
    exact ⟨rfl, rfl⟩

/-- A key press either leaves the globals as they are, or (game running, key not the
opposite of the committed direction) stores the key in `newDirection` and touches nothing
else. -/
theorem keyPressed_cases (g : Game) (k : SnakeDirection) :
    keyPressed g k = g ∨
      (g.gameOver = false ∧ k ≠ g.direction.opposite ∧
        keyPressed g k = { g with newDirection := k }) := by
  unfold keyPressed
  cases hg : g.gameOver
  · cases k <;> cases hd : g.direction <;> simp [SnakeDirection.opposite]
  · simp

theorem keyPressed_direction (g : Game) (k : SnakeDirection) :
    (keyPressed g k).direction = g.direction := by
  rcases keyPressed_cases g k with h | ⟨-, -, h⟩ <;> rw [h]

theorem keyPressed_pending_not_reverse (g : Game) (k : SnakeDirection)
    (h : g.newDirection ≠ g.direction.opposite) :
    (keyPressed g k).newDirection ≠ (keyPressed g k).direction.opposite := by
  rw [keyPressed_direction]
  unfold keyPressed
  cases hg : g.gameOver
  · cases k <;> cases hd : g.direction <;> simp_all [SnakeDirection.opposite]
  · simpa using h

theorem opposite_ne_self (d : SnakeDirection) : d ≠ d.opposite := by
  cases d <;> simp [SnakeDirection.opposite]

theorem initialGame_directions (rands : List Nat) (g : Game) (h : initialGame rands = some g) :
    g.direction = Right ∧ g.newDirection = Right ∧ g.gameOver = false ∧
      g.snake = Snake.Snake _snakeSize ∧ Berry.Berry (Snake.Snake _snakeSize) rands = some g.berry := by
  unfold initialGame at h
  simp only at h
  cases hb : Berry.Berry (Snake.Snake _snakeSize) rands with
  | none => rw [hb] at h; simp at h
  | some b =>
    rw [hb] at h
    simp only [Option.some.injEq] at h
    subst h
    exact ⟨rfl, rfl, rfl, rfl, rfl⟩

theorem keys_keep_not_reverse (keys : List SnakeDirection) (g : Game)
    (h : g.newDirection ≠ g.direction.opposite) :
    (keys.foldl keyPressed g).newDirection ≠ g.direction.opposite ∧
      (keys.foldl keyPressed g).direction = g.direction := by
  induction keys generalizing g with
  | nil => exact ⟨h, rfl⟩
  | cons k ks ih =>
    have h1 := keyPressed_pending_not_reverse g k h
    have h2 := ih (keyPressed g k) h1
    rw [keyPressed_direction] at h2
    exact h2

theorem reachable_not_reverse (g : Game) (h : Reachable g) :
    g.newDirection ≠ g.direction.opposite := by
  induction h with
  | init rands g h =>
    obtain ⟨h1, h2, -⟩ := initialGame_directions rands g h
    rw [h1, h2]; decide
  | key g k _ ih => exact keyPressed_pending_not_reverse g k ih
  | tick g rands g1 _ ht _ =>
    obtain ⟨h1, h2⟩ := tick_directions g rands g1 ht
    rw [h1, h2]; exact opposite_ne_self _

/-- C2: in every reachable state the pending direction is not the reverse of the
committed one; and whatever keys are pressed between two consecutive ticks, the direction
committed by the later tick is not the opposite of the one committed by the earlier tick
(this second part holds from any state at all). -/
theorem no_reversal_across_ticks :
    (∀ g : Game, Reachable g → g.newDirection ≠ g.direction.opposite) ∧
    (∀ (g : Game) (r1 : List Nat) (g1 : Game) (keys : List SnakeDirection) (r2 : List Nat)
        (g2 : Game),
      tick g r1 = .ok g1 → tick (keys.foldl keyPressed g1) r2 = .ok g2 →
        g2.direction ≠ g1.direction.opposite) := by
  refine ⟨reachable_not_reverse, ?_⟩
  intro g r1 g1 keys r2 g2 h1 h2
  obtain ⟨hd, hn⟩ := tick_directions g r1 g1 h1
  have h0 : g1.newDirection ≠ g1.direction.opposite := by
    rw [hd, hn]; exact opposite_ne_self _
  obtain ⟨hk, -⟩ := keys_keep_not_reverse keys g1 h0
  rw [(tick_directions _ r2 g2 h2).1]
  exact hk

/-- The globals after static initialisation when `rand()` gives 1 and 2 to the first berry:
the berry lies at (2,3). -/
def game0 : Game :=
  { snake := { bodyPixels := [⟨14, 15⟩, ⟨15, 15⟩, ⟨16, 15⟩, ⟨17, 15⟩], headPixel := ⟨18, 15⟩ }
    berry := { position := ⟨2, 3⟩ }
    direction := Right, newDirection := Right, gameOver := false }

/-- The state `game0` after one tick. -/
def game1 : Game :=
  { snake := { bodyPixels := [⟨15, 15⟩, ⟨16, 15⟩, ⟨17, 15⟩, ⟨18, 15⟩], headPixel := ⟨19, 15⟩ }
    berry := { position := ⟨2, 3⟩ }
    direction := Right, newDirection := Right, gameOver := false }

/-- The state `game1` after the keys Up, Left and one tick. -/
def game2 : Game :=
  { snake := { bodyPixels := [⟨16, 15⟩, ⟨17, 15⟩, ⟨18, 15⟩, ⟨19, 15⟩], headPixel := ⟨19, 14⟩ }
    berry := { position := ⟨2, 3⟩ }
    direction := Up, newDirection := Up, gameOver := false }

theorem initialGame_game0 : initialGame [1, 2] = some game0 := by decide

theorem tick_game0 : tick game0 [] = .ok game1 := by rfl

theorem tick_game1_keys : tick ([Up, Left].foldl keyPressed game1) [] = .ok game2 := by rfl

theorem reachable_game0 : Reachable game0 := Reachable.init [1, 2] game0 initialGame_game0

theorem no_reversal_across_ticks_witness :
    (Reachable game0 ∧ game0.newDirection ≠ game0.direction.opposite) ∧
    (tick game0 [] = .ok game1 ∧ tick ([Up, Left].foldl keyPressed game1) [] = .ok game2 ∧
      game2.direction ≠ game1.direction.opposite) :=
  ⟨⟨reachable_game0, no_reversal_across_ticks.1 game0 reachable_game0⟩,
   tick_game0, tick_game1_keys,
   no_reversal_across_ticks.2 game0 [] game1 [Up, Left] [] game2 tick_game0 tick_game1_keys⟩

/-! ## Snake.move -/

/-- The candidate head as the specification words it: the cell one unit from the head,
passed through the `Pixel` constructor. -/
def candidateHead (s : Snake) (d : SnakeDirection) : Pixel :=
  Pixel.Pixel (offsetCell s.headPixel d).x (offsetCell s.headPixel d).y

theorem newHead_eq_candidateHead (s : Snake) (d : SnakeDirection) :
    s.newHead d = candidateHead s d := by
  cases d <;> simp [Snake.newHead, candidateHead, offsetCell]

theorem Pixel_ctor_of_le (x y : Int) (hx : x ≤ _gridSize) (hy : y ≤ _gridSize) :
    Pixel.Pixel x y = { x := x, y := y } := by
  simp [Pixel.Pixel, not_lt.2 hx, not_lt.2 hy]

theorem move_of_blocked (s : Snake) (d : SnakeDirection) (b : Border)
    (h : s.contains (s.newHead d) = true ∨ b.contains (s.newHead d) = true) :
    s.move d b = (false, s) := by
  unfold Snake.move
  simp only
  by_cases hs : s.contains (s.newHead d) = true
  · rw [if_pos hs]
  · rw [if_neg hs]
    have hb : b.contains (s.newHead d) = true := h.resolve_left hs
    rw [if_pos hb]

theorem move_of_free (s : Snake) (d : SnakeDirection) (b : Border)
    (hs : s.contains (s.newHead d) = false) (hb : b.contains (s.newHead d) = false) :
    s.move d b =
      (true, { bodyPixels := (s.bodyPixels ++ [s.headPixel]).tail, headPixel := s.newHead d }) := by
  unfold Snake.move
  simp [hs, hb]

theorem move_fst_false_iff (s : Snake) (d : SnakeDirection) (b : Border) :
    (s.move d b).1 = false ↔
      (s.contains (s.newHead d) = true ∨ b.contains (s.newHead d) = true) := by
  constructor
  · intro h
    by_contra hcon
    push_neg at hcon
    rw [move_of_free s d b (by simpa using hcon.1) (by simpa using hcon.2)] at h
    simp at h
  · intro h
    rw [move_of_blocked s d b h]

/-- C3: when the candidate head (the head offset by one unit, then clamped by the `Pixel`
constructor) is the head, a body cell or a border cell, `Snake.move` returns false and
leaves head and body as they were; the same move attempted again is rejected again, with
the same state. -/
theorem move_rejected_leaves_snake (s : Snake) (d : SnakeDirection) (b : Border)
    (h : candidateHead s d = s.headPixel ∨ candidateHead s d ∈ s.bodyPixels ∨
      candidateHead s d ∈ b.borderPixels) :
    (s.move d b).1 = false ∧ (s.move d b).2.headPixel = s.headPixel ∧
      (s.move d b).2.bodyPixels = s.bodyPixels ∧ (s.move d b).2.move d b = (false, s) := by
  have hblocked : s.contains (s.newHead d) = true ∨ b.contains (s.newHead d) = true := by
    rw [newHead_eq_candidateHead, Snake_contains_iff, Border_contains_iff]
    tauto
  have hm := move_of_blocked s d b hblocked
  rw [hm]
  exact ⟨rfl, rfl, rfl, hm⟩

theorem move_rejected_leaves_snake_witness :
    (candidateHead (Snake.Snake 5) Left = (Snake.Snake 5).headPixel ∨
      candidateHead (Snake.Snake 5) Left ∈ (Snake.Snake 5).bodyPixels ∨
      candidateHead (Snake.Snake 5) Left ∈ (Border.Border 6).borderPixels) ∧
    (((Snake.Snake 5).move Left (Border.Border 6)).1 = false ∧
      ((Snake.Snake 5).move Left (Border.Border 6)).2.headPixel = (Snake.Snake 5).headPixel ∧
      ((Snake.Snake 5).move Left (Border.Border 6)).2.bodyPixels = (Snake.Snake 5).bodyPixels ∧
      ((Snake.Snake 5).move Left (Border.Border 6)).2.move Left (Border.Border 6)
        = (false, Snake.Snake 5)) :=
  ⟨by decide, move_rejected_leaves_snake (Snake.Snake 5) Left (Border.Border 6) (by decide)⟩

/-- Counterexample to C4 as stated: the snake built by `Snake(32)` has all its cells
within coordinates at most 32 and its head at (32,15); the cell (33,15) to the right of the
head is neither occupied nor a border cell, yet the move to the right is rejected, because
the constructor clamps the candidate onto the head itself. -/
theorem move_success_counterexample :
    (∀ c, (c = (Snake.Snake 32).headPixel ∨ c ∈ (Snake.Snake 32).bodyPixels) →
      c.x ≤ _gridSize ∧ c.y ≤ _gridSize) ∧
    (Snake.Snake 32).headPixel = { x := 32, y := 15 } ∧
    (Snake.Snake 32).contains (offsetCell (Snake.Snake 32).headPixel Right) = false ∧
    border.contains (offsetCell (Snake.Snake 32).headPixel Right) = false ∧
    ((Snake.Snake 32).move Right border).1 = false := by
  refine ⟨?_, by decide, by decide, by decide, by decide⟩
  intro c hc
  have hall : ∀ p ∈ (Snake.Snake 32).headPixel :: (Snake.Snake 32).bodyPixels,
      p.x ≤ _gridSize ∧ p.y ≤ _gridSize := by decide
  exact hall c (by simpa using hc)

/-- C4 (amended): for a snake whose cells have coordinates at most `_gridSize` and a
direction for which the cell one unit from the head also has coordinates at most
`_gridSize`: if that cell is neither occupied by the snake nor in the border, `Snake.move`
returns true, the new head is exactly that cell, and the new body is the old body with
the old head appended and its first element removed. -/
theorem move_success_unclamped (s : Snake) (d : SnakeDirection) (b : Border)
    (_hcells : ∀ c, (c = s.headPixel ∨ c ∈ s.bodyPixels) → c.x ≤ _gridSize ∧ c.y ≤ _gridSize)
    (hoff : (offsetCell s.headPixel d).x ≤ _gridSize ∧ (offsetCell s.headPixel d).y ≤ _gridSize)
    (hfree : s.contains (offsetCell s.headPixel d) = false)
    (hborder : b.contains (offsetCell s.headPixel d) = false) :
    (s.move d b).1 = true ∧ (s.move d b).2.headPixel = offsetCell s.headPixel d ∧
      (s.move d b).2.bodyPixels = (s.bodyPixels ++ [s.headPixel]).tail := by
  have hnew : s.newHead d = offsetCell s.headPixel d := by
    rw [newHead_eq_candidateHead, candidateHead, Pixel_ctor_of_le _ _ hoff.1 hoff.2]
  rw [move_of_free s d b (by rw [hnew]; exact hfree) (by rw [hnew]; exact hborder), hnew]
  exact ⟨rfl, rfl, rfl⟩

theorem move_success_unclamped_witness :
    ((∀ c, (c = (Snake.Snake 5).headPixel ∨ c ∈ (Snake.Snake 5).bodyPixels) →
        c.x ≤ _gridSize ∧ c.y ≤ _gridSize) ∧
      ((offsetCell (Snake.Snake 5).headPixel Right).x ≤ _gridSize ∧
        (offsetCell (Snake.Snake 5).headPixel Right).y ≤ _gridSize) ∧
      (Snake.Snake 5).contains (offsetCell (Snake.Snake 5).headPixel Right) = false ∧
      (Border.Border 6).contains (offsetCell (Snake.Snake 5).headPixel Right) = false) ∧
    (((Snake.Snake 5).move Right (Border.Border 6)).1 = true ∧
      ((Snake.Snake 5).move Right (Border.Border 6)).2.headPixel = { x := 19, y := 15 } ∧
      ((Snake.Snake 5).move Right (Border.Border 6)).2.bodyPixels
        = [⟨15, 15⟩, ⟨16, 15⟩, ⟨17, 15⟩, ⟨18, 15⟩]) :=
  have hcells : ∀ c, (c = (Snake.Snake 5).headPixel ∨ c ∈ (Snake.Snake 5).bodyPixels) →
      c.x ≤ _gridSize ∧ c.y ≤ _gridSize := by
    intro c hc
    have hall : ∀ p ∈ (Snake.Snake 5).headPixel :: (Snake.Snake 5).bodyPixels,
        p.x ≤ _gridSize ∧ p.y ≤ _gridSize := by decide
    exact hall c (by simpa using hc)
  ⟨⟨hcells, by decide, by decide, by decide⟩,
   move_success_unclamped (Snake.Snake 5) Right (Border.Border 6) hcells (by decide) (by decide)
     (by decide)⟩

/-! ## Snake.grow and Snake.getSize -/

theorem move_body_length (s : Snake) (d : SnakeDirection) (b : Border) :
    (s.move d b).2.bodyPixels.length = s.bodyPixels.length := by
  unfold Snake.move
  simp only
  split
  · rfl
  · split
    · rfl
    · simp

theorem grow_of_cons (s : Snake) (front : Pixel) (rest : List Pixel)
    (h : s.bodyPixels = front :: rest) :
    s.grow = some { s with bodyPixels := Pixel.Pixel front.x front.y :: front :: rest } := by
  unfold Snake.grow
  rw [h]

theorem grow_eq_some_iff (s s1 : Snake) :
    s.grow = some s1 ↔
      ∃ front rest, s.bodyPixels = front :: rest ∧
        s1 = { s with bodyPixels := Pixel.Pixel front.x front.y :: front :: rest } := by
  constructor
  · intro h
    cases hb : s.bodyPixels with
    | nil => simp [Snake.grow, hb] at h
    | cons front rest =>
      rw [grow_of_cons s front rest hb] at h
      exact ⟨front, rest, rfl, (Option.some.inj h).symm⟩
  · rintro ⟨front, rest, hb, rfl⟩
    exact grow_of_cons s front rest hb

theorem grow_getSize (s s1 : Snake) (h : s.grow = some s1) :
    s1.getSize = s.getSize + 1 ∧ s1.headPixel = s.headPixel := by
  obtain ⟨front, rest, hb, rfl⟩ := (grow_eq_some_iff s s1).1 h
  simp [Snake.getSize, hb]

theorem grow_isSome_of_ne_nil (s : Snake) (h : s.bodyPixels ≠ []) : ∃ s1, s.grow = some s1 := by
  cases hb : s.bodyPixels with
  | nil => exact absurd hb h
  | cons front rest => exact ⟨_, grow_of_cons s front rest hb⟩

/-- C5: a successful move without `grow()` leaves `getSize()` unchanged; on a snake with
non-empty body `grow()` is defined, and after it one successful move leaves `getSize()`
exactly one greater than it was before `grow()`. -/
theorem getSize_after_move_and_grow :
    (∀ (s : Snake) (d : SnakeDirection) (b : Border),
      (s.move d b).1 = true → (s.move d b).2.getSize = s.getSize) ∧
    (∀ s : Snake, s.bodyPixels ≠ [] → s.grow.isSome = true) ∧
    (∀ (s s1 : Snake) (d : SnakeDirection) (b : Border),
      s.bodyPixels ≠ [] → s.grow = some s1 → (s1.move d b).1 = true →
        (s1.move d b).2.getSize = s.getSize + 1) := by
  refine ⟨?_, ?_, ?_⟩
  · intro s d b _
    simp [Snake.getSize, move_body_length]
  · intro s hs
    obtain ⟨s1, h1⟩ := grow_isSome_of_ne_nil s hs
    rw [h1]; rfl
  · intro s s1 d b _ h1 _
    rw [← (grow_getSize s s1 h1).1]
    simp [Snake.getSize, move_body_length]

/-- The snake `Snake(5)` after `grow()`. -/
def grownSnake5 : Snake :=
  { bodyPixels := [⟨14, 15⟩, ⟨14, 15⟩, ⟨15, 15⟩, ⟨16, 15⟩, ⟨17, 15⟩], headPixel := ⟨18, 15⟩ }

theorem getSize_after_move_and_grow_witness :
    (((Snake.Snake 5).move Right border).1 = true ∧
      ((Snake.Snake 5).move Right border).2.getSize = 5) ∧
    ((Snake.Snake 5).bodyPixels ≠ [] ∧ (Snake.Snake 5).grow.isSome = true) ∧
    ((Snake.Snake 5).grow = some grownSnake5 ∧ (grownSnake5.move Right border).1 = true ∧
      (grownSnake5.move Right border).2.getSize = 5 + 1) :=
  ⟨⟨by decide, getSize_after_move_and_grow.1 (Snake.Snake 5) Right border (by decide)⟩,
   ⟨by decide, getSize_after_move_and_grow.2.1 (Snake.Snake 5) (by decide)⟩,
   by decide, by decide,
   getSize_after_move_and_grow.2.2 (Snake.Snake 5) grownSnake5 Right border (by decide)
     (by decide) (by decide)⟩

/-! ## The border -/

/-- The cells one iteration of the `Border` constructor adds. -/
def Border.ring (size i : Int) : List Pixel := Border.loopBody size [] i

theorem Border_loopBody_eq (size : Int) (acc : List Pixel) (i : Int) :
    Border.loopBody size acc i = acc ++ Border.ring size i := by
  unfold Border.ring Border.loopBody
  by_cases h : i = 0 ∨ i = size - 1
  · simp [h]
  · simp [h]

theorem Border_foldl_eq (size : Int) (l : List Nat) (acc : List Pixel) :
    l.foldl (fun acc (k : Nat) => Border.loopBody size acc (k : Int)) acc
      = acc ++ l.flatMap (fun (k : Nat) => Border.ring size (k : Int)) := by
  induction l generalizing acc with
  | nil => simp
  | cons k ks ih =>
    rw [List.foldl_cons, ih, Border_loopBody_eq, List.flatMap_cons, List.append_assoc]

theorem Border_pixels_eq (size : Int) :
    (Border.Border size).borderPixels
      = (List.range size.toNat).flatMap (fun (k : Nat) => Border.ring size (k : Int)) := by
  unfold Border.Border
  simp only
  rw [Border_foldl_eq, List.nil_append]

theorem mem_ring_iff (size i : Int) (c : Pixel) (hi : i ≤ size - 1)
    (hs : size ≤ _gridSize) :
    c ∈ Border.ring size i ↔
      (c = ⟨i, 0⟩ ∨ c = ⟨i, size - 1⟩ ∨
        (i ≠ 0 ∧ i ≠ size - 1 ∧ (c = ⟨0, i⟩ ∨ c = ⟨size - 1, i⟩))) := by
  have h32 : _gridSize = 32 := rfl
  have e1 : Pixel.Pixel i 0 = ⟨i, 0⟩ := Pixel_ctor_of_le _ _ (by omega) (by omega)
  have e2 : Pixel.Pixel i (size - 1) = ⟨i, size - 1⟩ := Pixel_ctor_of_le _ _ (by omega) (by omega)
  have e3 : Pixel.Pixel 0 i = ⟨0, i⟩ := Pixel_ctor_of_le _ _ (by omega) (by omega)
  have e4 : Pixel.Pixel (size - 1) i = ⟨size - 1, i⟩ :=
    Pixel_ctor_of_le _ _ (by omega) (by omega)
  unfold Border.ring Border.loopBody
  by_cases h : i = 0 ∨ i = size - 1
  · simp only [h, if_true, List.nil_append, List.singleton_append, List.mem_cons,
      List.mem_singleton, e1, e2, List.not_mem_nil, or_false]
    constructor
    · rintro (h1 | h1)
      · exact Or.inl h1
      · exact Or.inr (Or.inl h1)
    · rintro (h1 | h1 | ⟨h1, h2, -⟩)
      · exact Or.inl h1
      · exact Or.inr h1
      · rcases h with h | h
        · exact absurd h h1
        · exact absurd h h2
  · simp only [h, if_false, List.nil_append, List.singleton_append, List.cons_append,
      List.mem_cons, List.mem_singleton, e1, e2, e3, e4, List.not_mem_nil, or_false]
    push_neg at h
    constructor
    · rintro (h1 | h1 | h1 | h1)
      · exact Or.inl h1
      · exact Or.inr (Or.inl h1)
      · exact Or.inr (Or.inr ⟨h.1, h.2, Or.inl h1⟩)
      · exact Or.inr (Or.inr ⟨h.1, h.2, Or.inr h1⟩)
    · rintro (h1 | h1 | ⟨-, -, h1 | h1⟩)
      · exact Or.inl h1
      · exact Or.inr (Or.inl h1)
      · exact Or.inr (Or.inr (Or.inl h1))
      · exact Or.inr (Or.inr (Or.inr h1))

theorem Pixel_eq_iff (c : Pixel) (a b : Int) : c = ⟨a, b⟩ ↔ c.x = a ∧ c.y = b := by
  cases c; simp

theorem mem_Border_iff (size : Int) (hs : size ≤ _gridSize) (c : Pixel) :
    c ∈ (Border.Border size).borderPixels ↔ isPerimeter size c := by
  rw [Border_pixels_eq, List.mem_flatMap]
  unfold isPerimeter
  constructor
  · rintro ⟨k, hk, hc⟩
    rw [List.mem_range] at hk
    have hk1 : (k : Int) ≤ size - 1 := by omega
    rw [mem_ring_iff size k c hk1 hs] at hc
    simp only [Pixel_eq_iff] at hc
    omega
  · rintro ⟨⟨hx0, hx1, hy0, hy1⟩, hedge⟩
    by_cases hy : c.y = 0 ∨ c.y = size - 1
    · refine ⟨c.x.toNat, ?_, ?_⟩
      · rw [List.mem_range]; omega
      · have hcast : ((c.x.toNat : Nat) : Int) = c.x := Int.toNat_of_nonneg hx0
        rw [hcast, mem_ring_iff size c.x c hx1 hs]
        simp only [Pixel_eq_iff, true_and]
        omega
    · refine ⟨c.y.toNat, ?_, ?_⟩
      · rw [List.mem_range]; omega
      · have hcast : ((c.y.toNat : Nat) : Int) = c.y := Int.toNat_of_nonneg hy0
        rw [hcast, mem_ring_iff size c.y c hy1 hs]
        simp only [Pixel_eq_iff, and_true]
        omega

theorem ring_length (size i : Int) :
    (Border.ring size i).length = if i = 0 ∨ i = size - 1 then 2 else 4 := by
  unfold Border.ring Border.loopBody
  by_cases h : i = 0 ∨ i = size - 1
  · simp [h]
  · simp [h]

theorem Border_range_length (size : Int) (m : Nat) (hm : m ≤ size.toNat) (h2 : 2 ≤ size) :
    ((List.range m).flatMap (fun (k : Nat) => Border.ring size (k : Int))).length
      = if m = 0 then 0 else if m = size.toNat then 4 * m - 4 else 4 * m - 2 := by
  induction m with
  | zero => simp
  | succ m ih =>
    rw [List.range_succ, List.flatMap_append, List.length_append, ih (by omega)]
    simp only [List.flatMap_cons, List.flatMap_nil, List.append_nil, ring_length]
    by_cases hm0 : m = 0
    · subst hm0
      have h3 : ¬ (0 + 1 = size.toNat) := by omega
      simp [h3]
    · rw [if_neg hm0, if_neg (by omega : ¬ m = size.toNat), if_neg (Nat.succ_ne_zero m)]
      by_cases hlast : m + 1 = size.toNat
      · rw [if_pos hlast, if_pos (by omega)]; omega
      · rw [if_neg hlast, if_neg (by omega)]; omega

theorem Border_length (size : Int) (h2 : 2 ≤ size) :
    (((Border.Border size).borderPixels.length : Nat) : Int) = 4 * (size - 1) := by
  rw [Border_pixels_eq, Border_range_length size size.toNat le_rfl h2]
  have h0 : ¬ (size.toNat = 0) := by omega
  simp only [h0, if_false, if_true]
  omega

theorem ring_nodup (size i : Int) (hi : i ≤ size - 1) (h2 : 2 ≤ size)
    (hs : size ≤ _gridSize) : (Border.ring size i).Nodup := by
  have h32 : _gridSize = 32 := rfl
  have e1 : Pixel.Pixel i 0 = ⟨i, 0⟩ := Pixel_ctor_of_le _ _ (by omega) (by omega)
  have e2 : Pixel.Pixel i (size - 1) = ⟨i, size - 1⟩ := Pixel_ctor_of_le _ _ (by omega) (by omega)
  have e3 : Pixel.Pixel 0 i = ⟨0, i⟩ := Pixel_ctor_of_le _ _ (by omega) (by omega)
  have e4 : Pixel.Pixel (size - 1) i = ⟨size - 1, i⟩ :=
    Pixel_ctor_of_le _ _ (by omega) (by omega)
  unfold Border.ring Border.loopBody
  by_cases h : i = 0 ∨ i = size - 1
  · simp only [h, if_true, List.nil_append, List.singleton_append, e1, e2, List.nodup_cons,
      List.mem_singleton, List.not_mem_nil, List.nodup_nil, Pixel.mk.injEq, not_false_eq_true,
      and_true, true_and]
    omega
  · simp only [h, if_false, List.nil_append, List.singleton_append, List.cons_append, e1, e2,
      e3, e4, List.nodup_cons, List.mem_cons, List.mem_singleton, List.not_mem_nil,
      List.nodup_nil, Pixel.mk.injEq, not_false_eq_true, and_true, true_and, or_false]
    omega

theorem Border_nodup (size : Int) (h2 : 2 ≤ size) (hs : size ≤ _gridSize) :
    (Border.Border size).borderPixels.Nodup := by
  rw [Border_pixels_eq, List.nodup_flatMap]
  constructor
  · intro k hk
    rw [List.mem_range] at hk
    exact ring_nodup size k (by omega) h2 hs
  · have hlt : List.Pairwise (fun a b : Nat => a < b) (List.range size.toNat) :=
      List.pairwise_lt_range _
    have hmem : ∀ k ∈ List.range size.toNat, k < size.toNat := fun k hk => List.mem_range.1 hk
    refine List.Pairwise.imp_of_mem ?_ hlt
    intro a b ha hb hab
    have ha1 := hmem a ha
    have hb1 := hmem b hb
    intro c hca hcb
    rw [mem_ring_iff size a c (by omega) hs] at hca
    rw [mem_ring_iff size b c (by omega) hs] at hcb
    simp only [Pixel_eq_iff] at hca hcb
    omega

theorem Border_contains_iff_perimeter (size : Int) (hs : size ≤ _gridSize) (c : Pixel) :
    (Border.Border size).contains c = true ↔ isPerimeter size c := by
  rw [Border_contains_iff, mem_Border_iff size hs]

/-- C7: for a side length between 2 and `_gridSize`, `Border(size)` holds exactly
`4 * (size - 1)` cells, pairwise distinct, and `Border.contains` is true exactly for the
perimeter cells (coordinates in `[0, size-1]`, one of them `0` or `size-1`), hence false
for interior cells and for cells outside the grid. -/
theorem Border_is_exactly_perimeter (size : Int) (h2 : 2 ≤ size) (hs : size ≤ _gridSize) :
    (((Border.Border size).borderPixels.length : Nat) : Int) = 4 * (size - 1) ∧
      (Border.Border size).borderPixels.Nodup ∧
      ∀ c : Pixel, (Border.Border size).contains c = true ↔ isPerimeter size c :=
  ⟨Border_length size h2, Border_nodup size h2 hs, Border_contains_iff_perimeter size hs⟩

theorem Border_is_exactly_perimeter_witness :
    ((2 : Int) ≤ 32 ∧ (32 : Int) ≤ _gridSize) ∧
    (Border.Border 32).borderPixels.length = 124 ∧
    ((((Border.Border 32).borderPixels.length : Nat) : Int) = 4 * (32 - 1) ∧
      (Border.Border 32).borderPixels.Nodup ∧
      ∀ c : Pixel, (Border.Border 32).contains c = true ↔ isPerimeter 32 c) :=
  ⟨by decide, by decide, Border_is_exactly_perimeter 32 (by decide) (by decide)⟩

/-! ## The berry spawner -/

theorem border_contains_false_of_interior (c : Pixel) (hx1 : 1 ≤ c.x) (hx2 : c.x ≤ _gridSize - 2)
    (hy1 : 1 ≤ c.y) (hy2 : c.y ≤ _gridSize - 2) : border.contains c = false := by
  rw [← Bool.not_eq_true]
  unfold border
  rw [Border_contains_iff_perimeter _gridSize le_rfl]
  unfold isPerimeter
  have h32 : _gridSize = 32 := rfl
  omega

theorem Berry_round (snake : Snake) (r1 r2 : Nat) (rest : List Nat) :
    Berry.Berry snake (r1 :: r2 :: rest) =
      if snake.contains { x := (r1 : Int) % 30 + 1, y := (r2 : Int) % 30 + 1 } = true
      then Berry.Berry snake rest
      else some { position := { x := (r1 : Int) % 30 + 1, y := (r2 : Int) % 30 + 1 } } := by
  have h1 : ((r1 : Int) % 30 + 1) ≤ _gridSize := by
    have h32 : _gridSize = 32 := rfl
    omega
  have h2 : ((r2 : Int) % 30 + 1) ≤ _gridSize := by
    have h32 : _gridSize = 32 := rfl
    omega
  have hp := Pixel_ctor_of_le _ _ h1 h2
  have h30 : _gridSize - 2 - 1 + 1 = 30 := rfl
  rw [Berry.Berry]
  simp only [h30, hp]

theorem Berry_some_spec (snake : Snake) :
    ∀ (rands : List Nat) (b : Berry), Berry.Berry snake rands = some b →
      snake.contains b.position = false ∧
        (1 ≤ b.position.x ∧ b.position.x ≤ _gridSize - 2) ∧
        (1 ≤ b.position.y ∧ b.position.y ≤ _gridSize - 2)
  | [], b, h => by simp [Berry.Berry] at h
  | [_], b, h => by simp [Berry.Berry] at h
  | r1 :: r2 :: rest, b, h => by
    rw [Berry_round] at h
    by_cases hc : snake.contains { x := (r1 : Int) % 30 + 1, y := (r2 : Int) % 30 + 1 } = true
    · rw [if_pos hc] at h
      exact Berry_some_spec snake rest b h
    · rw [if_neg hc] at h
      have hb := Option.some.inj h
      subst hb
      have h32 : _gridSize = 32 := rfl
      refine ⟨by simpa using hc, ⟨?_, ?_⟩, ⟨?_, ?_⟩⟩ <;> simp only <;> omega

/-- C6: whenever the sampling loop of the `Berry` constructor ends, the position it leaves
is not occupied by the snake and has both coordinates in `[1, _gridSize - 2] = [1, 30]`,
so that it is not a border cell. -/
theorem Berry_spawn_free_and_interior (snake : Snake) (rands : List Nat) (b : Berry)
    (h : Berry.Berry snake rands = some b) :
    snake.contains b.position = false ∧
      (1 ≤ b.position.x ∧ b.position.x ≤ 30) ∧ (1 ≤ b.position.y ∧ b.position.y ≤ 30) ∧
      border.contains b.position = false := by
  obtain ⟨h1, ⟨h2, h3⟩, ⟨h4, h5⟩⟩ := Berry_some_spec snake rands b h
  exact ⟨h1, ⟨h2, h3⟩, ⟨h4, h5⟩, border_contains_false_of_interior _ h2 h3 h4 h5⟩

theorem Berry_spawn_free_and_interior_witness :
    Berry.Berry (Snake.Snake 5) [17, 14, 33, 62] = some { position := { x := 4, y := 3 } } ∧
    ((Snake.Snake 5).contains { x := 4, y := 3 } = false ∧
      (1 ≤ (4 : Int) ∧ (4 : Int) ≤ 30) ∧ (1 ≤ (3 : Int) ∧ (3 : Int) ≤ 30) ∧
      border.contains { x := 4, y := 3 } = false) :=
  ⟨by decide,
   Berry_spawn_free_and_interior (Snake.Snake 5) [17, 14, 33, 62]
     { position := { x := 4, y := 3 } } (by decide)⟩

/-! ## The game-over flag -/

theorem keyPressed_of_gameOver (g : Game) (k : SnakeDirection) (h : g.gameOver = true) :
    keyPressed g k = g := by
  unfold keyPressed
  rw [if_pos h]

theorem keyPressed_gameOver (g : Game) (k : SnakeDirection) :
    (keyPressed g k).gameOver = g.gameOver := by
  rcases keyPressed_cases g k with h | ⟨-, -, h⟩ <;> rw [h]

theorem tick_of_move_rejected (g : Game) (rands : List Nat)
    (h : (g.snake.move g.newDirection border).1 = false) :
    tick g rands = .ok { g with direction := g.newDirection,
                                snake := (g.snake.move g.newDirection border).2,
                                gameOver := true } := by
  unfold tick
  simp only
  rcases hm : g.snake.move g.newDirection border with ⟨ok, s⟩
  rw [hm] at h
  simp only at h
  subst h
  rfl

/-- C8: a tick started with `gameOver == false` ends with `gameOver == true` exactly when
`snake.move(newDirection, border)` returns false (and then the tick does end); a tick or a
key press started with `gameOver == true` leaves it true. -/
theorem gameOver_set_exactly_on_rejected_move :
    (∀ (g : Game) (rands : List Nat), g.gameOver = false →
      ((∃ g1, tick g rands = .ok g1 ∧ g1.gameOver = true) ↔
        (g.snake.move g.newDirection border).1 = false)) ∧
    (∀ (g : Game) (rands : List Nat) (g1 : Game), g.gameOver = false → tick g rands = .ok g1 →
      (g1.gameOver = true ↔ (g.snake.move g.newDirection border).1 = false)) ∧
    (∀ (g : Game) (rands : List Nat) (g1 : Game), g.gameOver = true → tick g rands = .ok g1 →
      g1.gameOver = true) ∧
    (∀ (g : Game) (k : SnakeDirection), g.gameOver = true → (keyPressed g k).gameOver = true) := by
  have key : ∀ (g : Game) (rands : List Nat) (g1 : Game), g.gameOver = false →
      tick g rands = .ok g1 →
      (g1.gameOver = true ↔ (g.snake.move g.newDirection border).1 = false) := by
    intro g rands g1 hg h
    rcases tick_ok_cases g rands g1 h with ⟨hm, rfl⟩ | ⟨hm, -, rfl⟩ | ⟨hm, -, b, s1, -, -, rfl⟩
    · simp [hm]
    · simp [hm, hg]
    · simp [hm, hg]
  refine ⟨?_, key, ?_, ?_⟩
  · intro g rands hg
    constructor
    · rintro ⟨g1, h, h1⟩
      exact (key g rands g1 hg h).1 h1
    · intro hm
      exact ⟨_, tick_of_move_rejected g rands hm, rfl⟩
  · intro g rands g1 hg h
    rcases tick_ok_cases g rands g1 h with ⟨-, rfl⟩ | ⟨-, -, rfl⟩ | ⟨-, -, b, s1, -, -, rfl⟩
    · rfl
    · exact hg
    · exact hg
  · intro g k hg
    rw [keyPressed_gameOver]; exact hg

/-- A running game whose snake stands right before the right border column. -/
def gameAtWall : Game :=
  { snake := { bodyPixels := [⟨26, 15⟩, ⟨27, 15⟩, ⟨28, 15⟩, ⟨29, 15⟩], headPixel := ⟨30, 15⟩ }
    berry := { position := ⟨2, 3⟩ }
    direction := Right, newDirection := Right, gameOver := false }

/-- The state `gameAtWall` after one tick: the move into the border was rejected. -/
def gameCrashed : Game :=
  { snake := { bodyPixels := [⟨26, 15⟩, ⟨27, 15⟩, ⟨28, 15⟩, ⟨29, 15⟩], headPixel := ⟨30, 15⟩ }
    berry := { position := ⟨2, 3⟩ }
    direction := Right, newDirection := Right, gameOver := true }

theorem tick_gameAtWall : tick gameAtWall [] = .ok gameCrashed := by rfl

theorem tick_gameCrashed : tick gameCrashed [] = .ok gameCrashed := by rfl

theorem gameOver_set_exactly_on_rejected_move_witness :
    (gameAtWall.gameOver = false ∧
      ((∃ g1, tick gameAtWall [] = .ok g1 ∧ g1.gameOver = true) ↔
        (gameAtWall.snake.move gameAtWall.newDirection border).1 = false)) ∧
    (game0.gameOver = false ∧ tick game0 [] = .ok game1 ∧
      (game1.gameOver = true ↔ (game0.snake.move game0.newDirection border).1 = false)) ∧
    (gameCrashed.gameOver = true ∧ tick gameCrashed [] = .ok gameCrashed ∧
      gameCrashed.gameOver = true) ∧
    (gameCrashed.gameOver = true ∧ (keyPressed gameCrashed Up).gameOver = true) :=
  ⟨⟨rfl, gameOver_set_exactly_on_rejected_move.1 gameAtWall [] rfl⟩,
   ⟨rfl, tick_game0, gameOver_set_exactly_on_rejected_move.2.1 game0 [] game1 rfl tick_game0⟩,
   ⟨rfl, tick_gameCrashed,
     gameOver_set_exactly_on_rejected_move.2.2.1 gameCrashed [] gameCrashed rfl tick_gameCrashed⟩,
   ⟨rfl, gameOver_set_exactly_on_rejected_move.2.2.2 gameCrashed Up rfl⟩⟩

/-! ## Invariants of the reachable states -/

/-- The cells the snake occupies: the head and the body cells. -/
def snakeCells (s : Snake) : List Pixel := s.headPixel :: s.bodyPixels

/-- A cell whose coordinates are at most `_gridSize`, as every cell built by the `Pixel`
constructor is. -/
def clampedCell (c : Pixel) : Prop := c.x ≤ _gridSize ∧ c.y ≤ _gridSize

theorem Pixel_ctor_clamped (x y : Int) : clampedCell (Pixel.Pixel x y) := by
  unfold clampedCell Pixel.Pixel
  constructor
  · simp only; split <;> omega
  · simp only; split <;> omega

theorem Pixel_ctor_of_clamped (c : Pixel) (h : clampedCell c) : Pixel.Pixel c.x c.y = c := by
  rw [Pixel_ctor_of_le _ _ h.1 h.2]

theorem newHead_clamped (s : Snake) (d : SnakeDirection) : clampedCell (s.newHead d) := by
  rw [newHead_eq_candidateHead]
  exact Pixel_ctor_clamped _ _

theorem Snake_contains_iff_mem_cells (s : Snake) (c : Pixel) :
    s.contains c = true ↔ c ∈ snakeCells s := by
  rw [Snake_contains_iff, snakeCells, List.mem_cons]

theorem move_snd_of_rejected (s : Snake) (d : SnakeDirection) (b : Border)
    (h : (s.move d b).1 = false) : (s.move d b).2 = s := by
  rw [move_of_blocked s d b ((move_fst_false_iff s d b).1 h)]

theorem move_eq_of_accepted (s : Snake) (d : SnakeDirection) (b : Border)
    (h : (s.move d b).1 = true) :
    s.contains (s.newHead d) = false ∧ b.contains (s.newHead d) = false ∧
      (s.move d b).2 =
        { bodyPixels := (s.bodyPixels ++ [s.headPixel]).tail, headPixel := s.newHead d } := by
  have h1 : ¬ (s.contains (s.newHead d) = true ∨ b.contains (s.newHead d) = true) := by
    intro hb
    rw [(move_fst_false_iff s d b).2 hb] at h
    exact Bool.false_ne_true h
  push_neg at h1
  have hs : s.contains (s.newHead d) = false := by simpa using h1.1
  have hb : b.contains (s.newHead d) = false := by simpa using h1.2
  exact ⟨hs, hb, by rw [move_of_free s d b hs hb]⟩

/-- After an accepted move the body cells are cells the snake occupied before. -/
theorem move_body_subset (s : Snake) (d : SnakeDirection) (b : Border) (c : Pixel)
    (hc : c ∈ (s.move d b).2.bodyPixels) : c ∈ snakeCells s := by
  cases hm : (s.move d b).1
  · rw [move_snd_of_rejected s d b hm] at hc
    exact List.mem_cons_of_mem _ hc
  · rw [(move_eq_of_accepted s d b hm).2.2] at hc
    have h1 : c ∈ s.bodyPixels ++ [s.headPixel] := List.mem_of_mem_tail hc
    rw [List.mem_append, List.mem_singleton] at h1
    rw [snakeCells, List.mem_cons]
    tauto

theorem grow_cells (s s1 : Snake) (h : s.grow = some s1)
    (hcl : ∀ c ∈ snakeCells s, clampedCell c) (c : Pixel) : c ∈ snakeCells s1 ↔ c ∈ snakeCells s := by
  obtain ⟨front, rest, hb, rfl⟩ := (grow_eq_some_iff s s1).1 h
  have hf : clampedCell front := hcl front (by rw [snakeCells, hb]; simp)
  simp only [snakeCells, hb, Pixel_ctor_of_clamped front hf, List.mem_cons]
  tauto

/-- The facts about a reachable state that the tick relies on: every snake cell has
coordinates at most `_gridSize`, the body has at least `_snakeSize - 1 = 4` cells, and the
berry does not lie on the snake. -/
def GameInv (g : Game) : Prop :=
  (∀ c ∈ snakeCells g.snake, clampedCell c) ∧ 4 ≤ g.snake.bodyPixels.length ∧
    g.snake.contains g.berry.position = false

theorem move_keeps_clamped (s : Snake) (d : SnakeDirection) (b : Border)
    (hcl : ∀ c ∈ snakeCells s, clampedCell c) : ∀ c ∈ snakeCells (s.move d b).2, clampedCell c := by
  intro c hc
  rw [snakeCells, List.mem_cons] at hc
  rcases hc with rfl | hc
  · cases hm : (s.move d b).1
    · rw [move_snd_of_rejected s d b hm]
      exact hcl _ (by simp [snakeCells])
    · rw [(move_eq_of_accepted s d b hm).2.2]
      exact newHead_clamped s d
  · exact hcl c (move_body_subset s d b c hc)

theorem GameInv_initial (rands : List Nat) (g : Game) (h : initialGame rands = some g) :
    GameInv g := by
  obtain ⟨-, -, -, hs, hb⟩ := initialGame_directions rands g h
  refine ⟨?_, ?_, ?_⟩
  · rw [hs]; unfold clampedCell; decide
  · rw [hs]; decide
  · rw [hs]; exact (Berry_some_spec _ rands g.berry hb).1

theorem GameInv_keyPressed (g : Game) (k : SnakeDirection) (h : GameInv g) :
    GameInv (keyPressed g k) := by
  rcases keyPressed_cases g k with h1 | ⟨-, -, h1⟩ <;> rw [h1] <;> exact h

theorem GameInv_tick (g : Game) (rands : List Nat) (g1 : Game) (h : GameInv g)
    (ht : tick g rands = .ok g1) : GameInv g1 := by
  obtain ⟨hcl, hlen, hberry⟩ := h
  have hcl1 := move_keeps_clamped g.snake g.newDirection border hcl
  have hlen1 := move_body_length g.snake g.newDirection border
  rcases tick_ok_cases g rands g1 ht with ⟨hm, rfl⟩ | ⟨-, hc, rfl⟩ | ⟨-, -, b, s1, hb, hg, rfl⟩
  · refine ⟨hcl1, by simp only; omega, ?_⟩
    simp only
    rw [move_snd_of_rejected _ _ _ hm]
    exact hberry
  · exact ⟨hcl1, by simp only; omega, hc⟩
  · have hcells := grow_cells _ s1 hg hcl1
    refine ⟨fun c hc => hcl1 c ((hcells c).1 hc), ?_, ?_⟩
    · have h1 := (grow_getSize _ s1 hg).1
      simp only [Snake.getSize] at h1
      simp only
      omega
    · simp only
      have h2 := (Berry_some_spec _ rands b hb).1
      rw [← Bool.not_eq_true, Snake_contains_iff_mem_cells] at h2 ⊢
      rw [hcells]
      exact h2

theorem reachable_GameInv (g : Game) (h : Reachable g) : GameInv g := by
  induction h with
  | init rands g h => exact GameInv_initial rands g h
  | key g k _ ih => exact GameInv_keyPressed g k ih
  | tick g rands g1 _ ht ih => exact GameInv_tick g rands g1 ih ht

/-! ## Eating the berry -/

/-- The snake as `snake.move(newDirection, border)` leaves it during a tick. -/
def movedSnake (g : Game) : Snake := (g.snake.move g.newDirection border).2

theorem tick_of_move_away (g : Game) (rands : List Nat)
    (hm : (g.snake.move g.newDirection border).1 = true)
    (hc : (movedSnake g).contains g.berry.position = false) :
    tick g rands = .ok { g with direction := g.newDirection, snake := movedSnake g } := by
  unfold movedSnake at hc
  unfold tick
  simp only
  rcases hmv : g.snake.move g.newDirection border with ⟨ok, s⟩
  rw [hmv] at hm hc
  simp only at hm hc
  subst hm
  simp only [hc, Bool.false_eq_true, if_false]
  unfold movedSnake
  rw [hmv]

theorem tick_of_move_onto_berry (g : Game) (rands : List Nat) (b : Berry) (s1 : Snake)
    (hm : (g.snake.move g.newDirection border).1 = true)
    (hc : (movedSnake g).contains g.berry.position = true)
    (hb : Berry.Berry (movedSnake g) rands = some b) (hg : (movedSnake g).grow = some s1) :
    tick g rands = .ok { g with direction := g.newDirection, snake := s1, berry := b } := by
  unfold movedSnake at hc hb hg
  unfold tick
  simp only
  rcases hmv : g.snake.move g.newDirection border with ⟨ok, s⟩
  rw [hmv] at hm hc hb hg
  simp only at hm hc hb hg
  subst hm
  simp only [hc, if_true, hb, hg]

/-- On a state where the berry is off the snake, the moved snake covers the berry exactly
when its new head is the berry cell. -/
theorem moved_contains_berry_iff (g : Game) (hberry : g.snake.contains g.berry.position = false) :
    (movedSnake g).contains g.berry.position = true ↔
      (movedSnake g).headPixel = g.berry.position := by
  unfold movedSnake
  rw [Snake_contains_iff]
  constructor
  · rintro (h | h)
    · exact h.symm
    · have h1 := move_body_subset _ _ _ _ h
      rw [← Snake_contains_iff_mem_cells, hberry] at h1
      exact absurd h1 Bool.false_ne_true
  · intro h
    exact Or.inl h.symm

/-- C9: in a reachable state, for a tick whose move succeeds: the test
`snake.contains(berry.position)` holds exactly when the new head is the berry cell; if it is
not, the tick ends with berry and `getSize()` unchanged; if it is, then for every berry the
spawner returns the tick ends with that berry, different from the previous one, and with the
grown snake, whose `getSize()` is one more than before; so the berry is replaced and the
size grows by one exactly when the new head equals the previous berry cell. -/
theorem tick_grows_exactly_on_berry (g : Game) (rands : List Nat) (hr : Reachable g)
    (hm : (g.snake.move g.newDirection border).1 = true) :
    ((movedSnake g).contains g.berry.position = true ↔
      (movedSnake g).headPixel = g.berry.position) ∧
    ((movedSnake g).headPixel ≠ g.berry.position →
      tick g rands = .ok { g with direction := g.newDirection, snake := movedSnake g } ∧
        (movedSnake g).getSize = g.snake.getSize) ∧
    ((movedSnake g).headPixel = g.berry.position →
      ∀ b, Berry.Berry (movedSnake g) rands = some b →
        ∃ s1, (movedSnake g).grow = some s1 ∧ s1.getSize = g.snake.getSize + 1 ∧
          b ≠ g.berry ∧
          tick g rands = .ok { g with direction := g.newDirection, snake := s1, berry := b }) ∧
    (∀ g1, tick g rands = .ok g1 →
      ((g1.berry ≠ g.berry ∧ g1.snake.getSize = g.snake.getSize + 1) ↔
        (movedSnake g).headPixel = g.berry.position) ∧
      ((movedSnake g).headPixel ≠ g.berry.position →
        g1.berry = g.berry ∧ g1.snake.getSize = g.snake.getSize)) := by
  obtain ⟨-, hlen, hberry⟩ := reachable_GameInv g hr
  have hiff := moved_contains_berry_iff g hberry
  have hsize : (movedSnake g).getSize = g.snake.getSize := by
    simp [movedSnake, Snake.getSize, move_body_length]
  have hne : (movedSnake g).bodyPixels ≠ [] := by
    intro h0
    have h1 : (movedSnake g).bodyPixels.length = g.snake.bodyPixels.length :=
      move_body_length _ _ _
    rw [h0] at h1
    simp only [List.length_nil] at h1
    omega
  have heat : (movedSnake g).headPixel = g.berry.position →
      ∀ b, Berry.Berry (movedSnake g) rands = some b →
        ∃ s1, (movedSnake g).grow = some s1 ∧ s1.getSize = g.snake.getSize + 1 ∧
          b ≠ g.berry ∧
          tick g rands = .ok { g with direction := g.newDirection, snake := s1, berry := b } := by
    intro hhead b hb
    obtain ⟨s1, hg⟩ := grow_isSome_of_ne_nil _ hne
    refine ⟨s1, hg, ?_, ?_, tick_of_move_onto_berry g rands b s1 hm (hiff.2 hhead) hb hg⟩
    · rw [(grow_getSize _ s1 hg).1, hsize]
    · intro hbb
      have h1 := (Berry_some_spec _ rands b hb).1
      rw [hbb, hiff.2 hhead] at h1
      exact Bool.noConfusion h1
  have haway : (movedSnake g).headPixel ≠ g.berry.position →
      tick g rands = .ok { g with direction := g.newDirection, snake := movedSnake g } := by
    intro hhead
    refine tick_of_move_away g rands hm ?_
    rw [← Bool.not_eq_true, hiff]
    exact hhead
  refine ⟨hiff, fun hhead => ⟨haway hhead, hsize⟩, heat, ?_⟩
  intro g1 ht
  by_cases hhead : (movedSnake g).headPixel = g.berry.position
  · rcases tick_ok_cases g rands g1 ht with ⟨hm0, -⟩ | ⟨-, hc, -⟩ | ⟨-, -, b, s1, hb, hg, rfl⟩
    · rw [hm] at hm0; exact absurd hm0 (by simp)
    · have h1 := hiff.2 hhead
      unfold movedSnake at h1
      rw [hc] at h1
      exact absurd h1 (by simp)
    · obtain ⟨s2, hg2, hsz, hbne, -⟩ := heat hhead b hb
      have hs : s2 = s1 := by
        unfold movedSnake at hg2
        rw [hg] at hg2
        exact (Option.some.inj hg2).symm
      subst hs
      exact ⟨⟨fun _ => hhead, fun _ => ⟨hbne, hsz⟩⟩, fun hcon => absurd hhead hcon⟩
  · have ht2 := haway hhead
    rw [ht] at ht2
    have hg1 : g1 = { g with direction := g.newDirection, snake := movedSnake g } := by
      injection ht2
    subst hg1
    refine ⟨⟨fun h => absurd rfl h.1, fun h => absurd h hhead⟩, fun _ => ⟨rfl, hsize⟩⟩

/-- The globals after static initialisation when `rand()` gives 18 and 14 to the first
berry: the berry lies at (19,15), one cell ahead of the head. -/
def gameBerryAhead : Game :=
  { snake := { bodyPixels := [⟨14, 15⟩, ⟨15, 15⟩, ⟨16, 15⟩, ⟨17, 15⟩], headPixel := ⟨18, 15⟩ }
    berry := { position := ⟨19, 15⟩ }
    direction := Right, newDirection := Right, gameOver := false }

theorem reachable_gameBerryAhead : Reachable gameBerryAhead :=
  Reachable.init [18, 14] gameBerryAhead (by decide)

/-- The state `gameBerryAhead` after one tick in which `rand()` gives 4 and 5: the berry was
eaten, the new berry lies at (5,6) and the snake has grown. -/
def gameAfterEating : Game :=
  { snake := { bodyPixels := [⟨15, 15⟩, ⟨15, 15⟩, ⟨16, 15⟩, ⟨17, 15⟩, ⟨18, 15⟩],
               headPixel := ⟨19, 15⟩ }
    berry := { position := ⟨5, 6⟩ }
    direction := Right, newDirection := Right, gameOver := false }

theorem tick_gameBerryAhead : tick gameBerryAhead [4, 5] = .ok gameAfterEating := by rfl

theorem tick_grows_exactly_on_berry_witness :
    (Reachable gameBerryAhead ∧
      (gameBerryAhead.snake.move gameBerryAhead.newDirection border).1 = true) ∧
    (movedSnake gameBerryAhead).headPixel = gameBerryAhead.berry.position ∧
    Berry.Berry (movedSnake gameBerryAhead) [4, 5] = some { position := ⟨5, 6⟩ } ∧
    (∃ s1, (movedSnake gameBerryAhead).grow = some s1 ∧
      s1.getSize = gameBerryAhead.snake.getSize + 1 ∧
      ({ position := ⟨5, 6⟩ } : Berry) ≠ gameBerryAhead.berry ∧
      tick gameBerryAhead [4, 5] =
        .ok { gameBerryAhead with direction := gameBerryAhead.newDirection, snake := s1,
                                  berry := { position := ⟨5, 6⟩ } }) ∧
    (tick gameBerryAhead [4, 5] = .ok gameAfterEating ∧
      ((gameAfterEating.berry ≠ gameBerryAhead.berry ∧
          gameAfterEating.snake.getSize = gameBerryAhead.snake.getSize + 1) ↔
        (movedSnake gameBerryAhead).headPixel = gameBerryAhead.berry.position)) ∧
    (Reachable game0 ∧ (game0.snake.move game0.newDirection border).1 = true) ∧
    (movedSnake game0).headPixel ≠ game0.berry.position ∧
    (tick game0 [] = .ok { game0 with direction := game0.newDirection, snake := movedSnake game0 } ∧
      (movedSnake game0).getSize = game0.snake.getSize) ∧
    (tick game0 [] = .ok game1 ∧ game1.berry = game0.berry ∧
      game1.snake.getSize = game0.snake.getSize) :=
  ⟨⟨reachable_gameBerryAhead, by decide⟩, by decide, by decide,
   (tick_grows_exactly_on_berry gameBerryAhead [4, 5] reachable_gameBerryAhead
      (by decide)).2.2.1 (by decide) { position := ⟨5, 6⟩ } (by decide),
   ⟨tick_gameBerryAhead,
    ((tick_grows_exactly_on_berry gameBerryAhead [4, 5] reachable_gameBerryAhead
      (by decide)).2.2.2 gameAfterEating tick_gameBerryAhead).1⟩,
   ⟨reachable_game0, by decide⟩, by decide,
   (tick_grows_exactly_on_berry game0 [] reachable_game0 (by decide)).2.1 (by decide),
   ⟨tick_game0,
    ((tick_grows_exactly_on_berry game0 [] reachable_game0 (by decide)).2.2.2 game1
      tick_game0).2 (by decide)⟩⟩

/-! ## Accepted key presses -/

/-- C10: while the game runs, a key that is not the opposite of the committed direction
becomes the pending direction whatever the pending direction was before; the committed
direction, the snake, the berry and `gameOver` stay as they were, and the outcome does not
depend on the previous pending value. -/
theorem keyPressed_accepts_non_opposite (g : Game) (d : SnakeDirection)
    (hg : g.gameOver = false) (hd : d ≠ g.direction.opposite) :
    (keyPressed g d).newDirection = d ∧ (keyPressed g d).direction = g.direction ∧
      (keyPressed g d).snake = g.snake ∧ (keyPressed g d).berry = g.berry ∧
      (keyPressed g d).gameOver = false ∧
      ∀ p : SnakeDirection, keyPressed { g with newDirection := p } d = keyPressed g d := by
  have h1 : ∀ g0 : Game, g0.gameOver = false → d ≠ g0.direction.opposite →
      keyPressed g0 d = { g0 with newDirection := d } := by
    intro g0 hg0 hd0
    unfold keyPressed
    cases d <;> cases hdir : g0.direction <;> simp_all [SnakeDirection.opposite]
  rw [h1 g hg hd]
  refine ⟨rfl, rfl, rfl, rfl, hg, ?_⟩
  intro p
  rw [h1 { g with newDirection := p } hg hd]

theorem keyPressed_accepts_non_opposite_witness :
    (game0.gameOver = false ∧ Up ≠ game0.direction.opposite) ∧
    ((keyPressed game0 Up).newDirection = Up ∧ (keyPressed game0 Up).direction = game0.direction ∧
      (keyPressed game0 Up).snake = game0.snake ∧ (keyPressed game0 Up).berry = game0.berry ∧
      (keyPressed game0 Up).gameOver = false ∧
      ∀ p : SnakeDirection, keyPressed { game0 with newDirection := p } Up = keyPressed game0 Up) :=
  ⟨⟨rfl, by decide⟩, keyPressed_accepts_non_opposite game0 Up rfl (by decide)⟩

/-! ## The Pixel constructor -/

/-- C15: for all integers `x` and `y` the cell built by `Pixel(x, y)` has coordinates
`(min(x, _gridSize), min(y, _gridSize))` with `_gridSize = 32`: a coordinate above 32 becomes
32, and every coordinate at most 32, negative ones included, is kept (no lower clamp). -/
theorem Pixel_ctor_caps_at_gridSize (x y : Int) :
    _gridSize = 32 ∧
    Pixel.Pixel x y = { x := min x _gridSize, y := min y _gridSize } ∧
    (x > 32 → (Pixel.Pixel x y).x = 32) ∧ (x ≤ 32 → (Pixel.Pixel x y).x = x) ∧
    (y > 32 → (Pixel.Pixel x y).y = 32) ∧ (y ≤ 32 → (Pixel.Pixel x y).y = y) := by
  have h32 : _gridSize = 32 := rfl
  refine ⟨h32, ?_, ?_, ?_, ?_, ?_⟩
  · unfold Pixel.Pixel
    rw [Pixel.mk.injEq]
    constructor
    · split
      · rw [min_eq_right (by omega)]
      · rw [min_eq_left (by omega)]
    · split
      · rw [min_eq_right (by omega)]
      · rw [min_eq_left (by omega)]
  · intro hx
    simp only [Pixel.Pixel, h32, if_pos hx]
  · intro hx
    simp only [Pixel.Pixel, h32, if_neg (not_lt.2 hx)]
  · intro hy
    simp only [Pixel.Pixel, h32, if_pos hy]
  · intro hy
    simp only [Pixel.Pixel, h32, if_neg (not_lt.2 hy)]

theorem Pixel_ctor_caps_at_gridSize_witness :
    ((40 : Int) > 32 ∧ (Pixel.Pixel 40 (-3)).x = 32) ∧
    ((-3 : Int) ≤ 32 ∧ (Pixel.Pixel 40 (-3)).y = -3) ∧
    ((33 : Int) > 32 ∧ (Pixel.Pixel 32 33).y = 32) ∧
    ((32 : Int) ≤ 32 ∧ (Pixel.Pixel 32 33).x = 32) ∧
    Pixel.Pixel 40 (-3) = { x := min 40 _gridSize, y := min (-3) _gridSize } :=
  ⟨⟨by decide, (Pixel_ctor_caps_at_gridSize 40 (-3)).2.2.1 (by decide)⟩,
   ⟨by decide, (Pixel_ctor_caps_at_gridSize 40 (-3)).2.2.2.2.2 (by decide)⟩,
   ⟨by decide, (Pixel_ctor_caps_at_gridSize 32 33).2.2.2.2.1 (by decide)⟩,
   ⟨by decide, (Pixel_ctor_caps_at_gridSize 32 33).2.2.2.1 (by decide)⟩,
   (Pixel_ctor_caps_at_gridSize 40 (-3)).2.1⟩

/-! ## Snake objects and Snake.grow -/

/-- The values an object of class `Snake` can take: its fields are private, so a snake is
what the constructor builds and what `move` and `grow` make of a snake. -/
inductive SnakeObject : Snake → Prop where
  | ctor (size : Int) : SnakeObject (Snake.Snake size)
  | move (s : Snake) (d : SnakeDirection) (b : Border) (h : SnakeObject s) :
      SnakeObject (s.move d b).2
  | grow (s s1 : Snake) (h : SnakeObject s) (hg : s.grow = some s1) : SnakeObject s1

theorem foldl_push_back_mem (f : Nat → Pixel) (l : List Nat) (acc : List Pixel) (c : Pixel)
    (hc : c ∈ l.foldl (fun acc (k : Nat) => acc ++ [f k]) acc) :
    c ∈ acc ∨ ∃ k ∈ l, c = f k := by
  induction l generalizing acc with
  | nil => exact Or.inl hc
  | cons k ks ih =>
    rw [List.foldl_cons] at hc
    rcases ih (acc ++ [f k]) hc with h | ⟨j, hj, h⟩
    · rw [List.mem_append, List.mem_singleton] at h
      rcases h with h | h
      · exact Or.inl h
      · exact Or.inr ⟨k, List.mem_cons_self _ _, h⟩
    · exact Or.inr ⟨j, List.mem_cons_of_mem _ hj, h⟩

theorem Snake_ctor_clamped (size : Int) : ∀ c ∈ snakeCells (Snake.Snake size), clampedCell c := by
  intro c hc
  rw [snakeCells, List.mem_cons] at hc
  rcases hc with rfl | hc
  · exact Pixel_ctor_clamped _ _
  · unfold Snake.Snake at hc
    simp only at hc
    rcases foldl_push_back_mem _ _ _ c hc with h | ⟨k, -, h⟩
    · exact absurd h (List.not_mem_nil c)
    · rw [h]; exact Pixel_ctor_clamped _ _

/-- Every cell of a snake object was built by the `Pixel` constructor, so its coordinates
are at most `_gridSize`. -/
theorem SnakeObject_clamped (s : Snake) (h : SnakeObject s) :
    ∀ c ∈ snakeCells s, clampedCell c := by
  induction h with
  | ctor size => exact Snake_ctor_clamped size
  | move s d b _ ih => exact move_keeps_clamped s d b ih
  | grow s s1 _ hg ih =>
    intro c hc
    exact ih c ((grow_cells s s1 hg ih c).1 hc)

theorem grow_contains (s s1 : Snake) (h : s.grow = some s1)
    (hcl : ∀ c ∈ snakeCells s, clampedCell c) (c : Pixel) : s1.contains c = s.contains c := by
  rw [Bool.eq_iff_iff, Snake_contains_iff_mem_cells, Snake_contains_iff_mem_cells]
  exact grow_cells s s1 h hcl c

/-- C14: on a snake with non-empty body `grow()` is defined and inserts a copy of the front
(oldest) body cell in front of the body; the head and the former body sequence stay, the
answer of `contains` is the same for every cell, and after the next successful move the
front body cell is still the front cell from before the growth. -/
theorem grow_duplicates_oldest_cell (s : Snake) (ho : SnakeObject s) (hne : s.bodyPixels ≠ []) :
    ∃ front rest s1, s.bodyPixels = front :: rest ∧ s.grow = some s1 ∧
      s1.headPixel = s.headPixel ∧ s1.bodyPixels = front :: s.bodyPixels ∧
      (∀ c : Pixel, s1.contains c = s.contains c) ∧
      (∀ (d : SnakeDirection) (b : Border), (s1.move d b).1 = true →
        (s1.move d b).2.bodyPixels.head? = some front) := by
  have hcl := SnakeObject_clamped s ho
  cases hb : s.bodyPixels with
  | nil => exact absurd hb hne
  | cons front rest =>
    have hf : clampedCell front := hcl front (by rw [snakeCells, hb]; simp)
    have hg := grow_of_cons s front rest hb
    rw [Pixel_ctor_of_clamped front hf] at hg
    refine ⟨front, rest, _, rfl, hg, rfl, rfl, ?_, ?_⟩
    · intro c
      exact grow_contains s _ hg hcl c
    · intro d b hm
      rw [(move_eq_of_accepted _ d b hm).2.2]
      rfl

theorem grow_duplicates_oldest_cell_witness :
    (SnakeObject (Snake.Snake 5) ∧ (Snake.Snake 5).bodyPixels ≠ []) ∧
    (Snake.Snake 5).grow = some grownSnake5 ∧
    grownSnake5.headPixel = (Snake.Snake 5).headPixel ∧
    grownSnake5.bodyPixels = ⟨14, 15⟩ :: (Snake.Snake 5).bodyPixels ∧
    (∀ c : Pixel, grownSnake5.contains c = (Snake.Snake 5).contains c) ∧
    (grownSnake5.move Right border).1 = true ∧
    (grownSnake5.move Right border).2.bodyPixels.head? = some ⟨14, 15⟩ := by
  obtain ⟨front, rest, s1, hb, hg, hh, hbody, hc, hmove⟩ :=
    grow_duplicates_oldest_cell (Snake.Snake 5) (SnakeObject.ctor 5) (by decide)
  have hg5 : (Snake.Snake 5).grow = some grownSnake5 := by decide
  have hb5 : (Snake.Snake 5).bodyPixels = [⟨14, 15⟩, ⟨15, 15⟩, ⟨16, 15⟩, ⟨17, 15⟩] := by decide
  have hs1 : s1 = grownSnake5 := by
    rw [hg5] at hg
    exact (Option.some.inj hg).symm
  have hfront : front = ⟨14, 15⟩ := by
    rw [hb5] at hb
    exact (List.cons.inj hb).1.symm
  subst hs1 hfront
  exact ⟨⟨SnakeObject.ctor 5, by decide⟩, hg5, hh, hbody, hc, by decide,
    hmove Right border (by decide)⟩

/-! ## The snake stays inside the border -/

/-- A cell strictly inside the border of the game: both coordinates in
`[1, _gridSize - 2] = [1, 30]`. -/
def insideCell (c : Pixel) : Prop :=
  1 ≤ c.x ∧ c.x ≤ _gridSize - 2 ∧ 1 ≤ c.y ∧ c.y ≤ _gridSize - 2

theorem clamped_of_inside (c : Pixel) (h : insideCell c) : clampedCell c := by
  unfold insideCell at h
  unfold clampedCell
  have h32 : _gridSize = 32 := rfl
  omega

/-- From a head inside the border the candidate head is the offset cell itself: the
constructor's clamp changes nothing, and both coordinates lie in `[0, 31]`. -/
theorem newHead_of_inside (s : Snake) (d : SnakeDirection) (h : insideCell s.headPixel) :
    s.newHead d = offsetCell s.headPixel d ∧
      (0 ≤ (s.newHead d).x ∧ (s.newHead d).x ≤ _gridSize - 1) ∧
      (0 ≤ (s.newHead d).y ∧ (s.newHead d).y ≤ _gridSize - 1) := by
  unfold insideCell at h
  have h32 : _gridSize = 32 := rfl
  have hoff : (offsetCell s.headPixel d).x ≤ _gridSize ∧ (offsetCell s.headPixel d).y ≤ _gridSize := by
    cases d <;> simp only [offsetCell] <;> omega
  have hnew : s.newHead d = offsetCell s.headPixel d := by
    rw [newHead_eq_candidateHead, candidateHead, Pixel_ctor_of_le _ _ hoff.1 hoff.2]
  rw [hnew]
  refine ⟨rfl, ?_, ?_⟩ <;> cases d <;> simp only [offsetCell] <;> omega

theorem inside_of_not_border (c : Pixel) (hx : 0 ≤ c.x ∧ c.x ≤ _gridSize - 1)
    (hy : 0 ≤ c.y ∧ c.y ≤ _gridSize - 1) (hb : border.contains c = false) : insideCell c := by
  have hp : ¬ isPerimeter _gridSize c := by
    rw [← Border_contains_iff_perimeter _gridSize le_rfl c]
    unfold border at hb
    rw [hb]
    exact Bool.false_ne_true
  unfold isPerimeter at hp
  unfold insideCell
  have h32 : _gridSize = 32 := rfl
  omega

theorem move_keeps_inside (s : Snake) (d : SnakeDirection)
    (h : ∀ c ∈ snakeCells s, insideCell c) : ∀ c ∈ snakeCells (s.move d border).2, insideCell c := by
  intro c hc
  rw [snakeCells, List.mem_cons] at hc
  rcases hc with rfl | hc
  · have hhead : insideCell s.headPixel := h _ (by simp [snakeCells])
    cases hm : (s.move d border).1
    · rw [move_snd_of_rejected s d border hm]
      exact hhead
    · obtain ⟨-, hb, heq⟩ := move_eq_of_accepted s d border hm
      rw [heq]
      obtain ⟨-, hx, hy⟩ := newHead_of_inside s d hhead
      exact inside_of_not_border _ hx hy hb
  · exact h c (move_body_subset s d border c hc)

/-- After an accepted move the new head is none of the new body cells, whatever the snake
was before. -/
theorem move_head_not_in_body (s : Snake) (d : SnakeDirection) (b : Border)
    (hm : (s.move d b).1 = true) : (s.move d b).2.headPixel ∉ (s.move d b).2.bodyPixels := by
  intro hin
  have h1 := move_body_subset s d b _ hin
  obtain ⟨hfree, -, heq⟩ := move_eq_of_accepted s d b hm
  rw [heq] at h1
  simp only at h1
  rw [← Snake_contains_iff_mem_cells, hfree] at h1
  exact Bool.false_ne_true h1

theorem grow_head_not_in_body (s s1 : Snake) (h : s.grow = some s1)
    (hcl : ∀ c ∈ snakeCells s, clampedCell c) (hh : s.headPixel ∉ s.bodyPixels) :
    s1.headPixel ∉ s1.bodyPixels := by
  obtain ⟨front, rest, hb, rfl⟩ := (grow_eq_some_iff s s1).1 h
  have hf : clampedCell front := hcl front (by rw [snakeCells, hb]; simp)
  simp only [Pixel_ctor_of_clamped front hf, List.mem_cons, not_or]
  rw [hb, List.mem_cons, not_or] at hh
  exact ⟨hh.1, hh.1, hh.2⟩

/-- What holds in every reachable state beyond `GameInv`: the snake lies strictly inside
the border, its head is none of its body cells, the berry lies strictly inside the border,
and once `gameOver` is set the committed direction is the pending one and the move in that
direction is rejected. -/
def StrongInv (g : Game) : Prop :=
  (∀ c ∈ snakeCells g.snake, insideCell c) ∧ g.snake.headPixel ∉ g.snake.bodyPixels ∧
    insideCell g.berry.position ∧
    (g.gameOver = true →
      g.direction = g.newDirection ∧ (g.snake.move g.newDirection border).1 = false)

theorem Berry_inside (snake : Snake) (rands : List Nat) (b : Berry)
    (h : Berry.Berry snake rands = some b) : insideCell b.position := by
  obtain ⟨-, ⟨h1, h2⟩, ⟨h3, h4⟩⟩ := Berry_some_spec snake rands b h
  exact ⟨h1, h2, h3, h4⟩

theorem StrongInv_initial (rands : List Nat) (g : Game) (h : initialGame rands = some g) :
    StrongInv g := by
  obtain ⟨-, -, hgo, hs, hb⟩ := initialGame_directions rands g h
  refine ⟨?_, ?_, Berry_inside _ rands g.berry hb, ?_⟩
  · rw [hs]; unfold insideCell; decide
  · rw [hs]; decide
  · intro hcon
    rw [hgo] at hcon
    exact absurd hcon Bool.false_ne_true

theorem StrongInv_keyPressed (g : Game) (k : SnakeDirection) (h : StrongInv g) :
    StrongInv (keyPressed g k) := by
  rcases keyPressed_cases g k with h1 | ⟨hgo, -, h1⟩
  · rw [h1]; exact h
  · rw [h1]
    obtain ⟨ha, hb, hc, -⟩ := h
    refine ⟨ha, hb, hc, ?_⟩
    intro hcon
    simp only at hcon
    rw [hgo] at hcon
    exact absurd hcon Bool.false_ne_true

theorem StrongInv_tick (g : Game) (rands : List Nat) (g1 : Game) (h : StrongInv g)
    (ht : tick g rands = .ok g1) : StrongInv g1 := by
  obtain ⟨hin, hhead, hberry, hover⟩ := h
  have hin1 := move_keeps_inside g.snake g.newDirection hin
  have hgo : ∀ hm : (g.snake.move g.newDirection border).1 = true, g.gameOver = false := by
    intro hm
    cases hg : g.gameOver
    · rfl
    · rw [(hover hg).2] at hm
      exact absurd hm Bool.false_ne_true
  rcases tick_ok_cases g rands g1 ht with ⟨hm, rfl⟩ | ⟨hm, -, rfl⟩ | ⟨hm, -, b, s1, hb, hg, rfl⟩
  · refine ⟨hin1, ?_, hberry, ?_⟩
    · simp only
      rw [move_snd_of_rejected _ _ _ hm]
      exact hhead
    · intro _
      refine ⟨rfl, ?_⟩
      simp only
      rw [move_snd_of_rejected _ _ _ hm]
      exact hm
  · refine ⟨hin1, move_head_not_in_body _ _ _ hm, hberry, ?_⟩
    intro hcon
    simp only at hcon
    rw [hgo hm] at hcon
    exact absurd hcon Bool.false_ne_true
  · have hcl1 : ∀ c ∈ snakeCells (g.snake.move g.newDirection border).2, clampedCell c :=
      fun c hc => clamped_of_inside c (hin1 c hc)
    refine ⟨?_, ?_, Berry_inside _ rands b hb, ?_⟩
    · intro c hc
      exact hin1 c ((grow_cells _ s1 hg hcl1 c).1 hc)
    · exact grow_head_not_in_body _ s1 hg hcl1 (move_head_not_in_body _ _ _ hm)
    · intro hcon
      simp only at hcon
      rw [hgo hm] at hcon
      exact absurd hcon Bool.false_ne_true

theorem reachable_StrongInv (g : Game) (h : Reachable g) : StrongInv g := by
  induction h with
  | init rands g h => exact StrongInv_initial rands g h
  | key g k _ ih => exact StrongInv_keyPressed g k ih
  | tick g rands g1 _ ht ih => exact StrongInv_tick g rands g1 ih ht

theorem reachable_gameAfterEating : Reachable gameAfterEating :=
  Reachable.tick gameBerryAhead [4, 5] gameAfterEating reachable_gameBerryAhead
    tick_gameBerryAhead

/-- C16: in every reachable state the head of the snake is none of the cells of its body
sequence. -/
theorem head_never_on_body (g : Game) (h : Reachable g) :
    g.snake.headPixel ∉ g.snake.bodyPixels ∧
      ∀ p ∈ g.snake.bodyPixels, p.equals g.snake.headPixel = false := by
  have hh := (reachable_StrongInv g h).2.1
  refine ⟨hh, ?_⟩
  intro p hp
  rw [← Bool.not_eq_true, Pixel_equals_iff]
  intro heq
  rw [heq] at hp
  exact hh hp

theorem head_never_on_body_witness :
    Reachable gameAfterEating ∧
    (gameAfterEating.snake.headPixel ∉ gameAfterEating.snake.bodyPixels ∧
      ∀ p ∈ gameAfterEating.snake.bodyPixels, p.equals gameAfterEating.snake.headPixel = false) :=
  ⟨reachable_gameAfterEating, head_never_on_body gameAfterEating reachable_gameAfterEating⟩

/-! ## Size and score -/

theorem tick_frontOfEmptyBody (g : Game) (rands : List Nat)
    (h : tick g rands = .error Fault.frontOfEmptyBody) : (movedSnake g).bodyPixels = [] := by
  unfold movedSnake
  unfold tick at h
  simp only at h
  rcases hm : g.snake.move g.newDirection border with ⟨ok, s⟩
  rw [hm] at h
  cases ok
  · simp at h
  · simp only at h
    by_cases hc : s.contains g.berry.position = true
    · rw [if_pos hc] at h
      cases hb : Berry.Berry s rands with
      | none => rw [hb] at h; simp at h
      | some b =>
        rw [hb] at h
        cases hgr : s.grow with
        | none =>
          cases hbody : s.bodyPixels with
          | nil => rfl
          | cons front rest =>
            rw [grow_of_cons s front rest hbody] at hgr
            simp at hgr
        | some s1 => rw [hgr] at h; simp at h
    · rw [if_neg hc] at h
      simp at h

theorem tick_getSize_le (g : Game) (rands : List Nat) (g1 : Game)
    (ht : tick g rands = .ok g1) :
    g1.snake.getSize = g.snake.getSize ∨ g1.snake.getSize = g.snake.getSize + 1 := by
  have hsize : (g.snake.move g.newDirection border).2.getSize = g.snake.getSize := by
    simp [Snake.getSize, move_body_length]
  rcases tick_ok_cases g rands g1 ht with ⟨-, rfl⟩ | ⟨-, -, rfl⟩ | ⟨-, -, b, s1, -, hg, rfl⟩
  · exact Or.inl hsize
  · exact Or.inl hsize
  · right
    simp only
    rw [(grow_getSize _ s1 hg).1, hsize]

theorem keyPressed_snake_berry (g : Game) (k : SnakeDirection) :
    (keyPressed g k).snake = g.snake ∧ (keyPressed g k).berry = g.berry := by
  rcases keyPressed_cases g k with h | ⟨-, -, h⟩ <;> rw [h] <;> exact ⟨rfl, rfl⟩

/-- C17: in every reachable state the body has at least `_snakeSize - 1 = 4` cells, the
score `getSize() - 5` is not negative, and no tick reads the front of an empty body; and
neither a key press nor a tick makes `getSize()` smaller. -/
theorem body_never_shorter_than_initial :
    (∀ g : Game, Reachable g →
      4 ≤ g.snake.bodyPixels.length ∧ 0 ≤ score g ∧
        ∀ rands : List Nat, tick g rands ≠ .error Fault.frontOfEmptyBody) ∧
    (∀ (g : Game) (k : SnakeDirection), Reachable g →
      g.snake.getSize ≤ (keyPressed g k).snake.getSize) ∧
    (∀ (g : Game) (rands : List Nat) (g1 : Game), Reachable g → tick g rands = .ok g1 →
      g.snake.getSize ≤ g1.snake.getSize) := by
  refine ⟨?_, ?_, ?_⟩
  · intro g hr
    obtain ⟨-, hlen, -⟩ := reachable_GameInv g hr
    refine ⟨hlen, ?_, ?_⟩
    · unfold score Snake.getSize _snakeSize
      omega
    · intro rands hcon
      have h0 := tick_frontOfEmptyBody g rands hcon
      have h1 : (movedSnake g).bodyPixels.length = g.snake.bodyPixels.length :=
        move_body_length _ _ _
      rw [h0] at h1
      simp only [List.length_nil] at h1
      omega
  · intro g k _
    rw [(keyPressed_snake_berry g k).1]
  · intro g rands g1 _ ht
    rcases tick_getSize_le g rands g1 ht with h | h <;> omega

theorem body_never_shorter_than_initial_witness :
    (Reachable gameAfterEating ∧
      (4 ≤ gameAfterEating.snake.bodyPixels.length ∧ 0 ≤ score gameAfterEating ∧
        ∀ rands : List Nat, tick gameAfterEating rands ≠ .error Fault.frontOfEmptyBody)) ∧
    (Reachable game0 ∧ game0.snake.getSize ≤ (keyPressed game0 Up).snake.getSize) ∧
    (Reachable gameBerryAhead ∧ tick gameBerryAhead [4, 5] = .ok gameAfterEating ∧
      gameBerryAhead.snake.getSize ≤ gameAfterEating.snake.getSize) :=
  ⟨⟨reachable_gameAfterEating,
     body_never_shorter_than_initial.1 gameAfterEating reachable_gameAfterEating⟩,
   ⟨reachable_game0, body_never_shorter_than_initial.2.1 game0 Up reachable_game0⟩,
   ⟨reachable_gameBerryAhead, tick_gameBerryAhead,
     body_never_shorter_than_initial.2.2 gameBerryAhead [4, 5] gameAfterEating
       reachable_gameBerryAhead tick_gameBerryAhead⟩⟩

/-! ## Coordinates of the reachable states -/

/-- C18: in every reachable state each snake cell, head or body, has both coordinates in
`[1, 30]`; so for every direction the candidate head of `Snake.move` has both coordinates
in `[0, 31]`, none negative, and equals the offset cell itself: the upper clamp of the
`Pixel` constructor changes no coordinate (nor does it in the copy `grow()` makes). -/
theorem snake_stays_inside_border (g : Game) (h : Reachable g) :
    (∀ c ∈ snakeCells g.snake, (1 ≤ c.x ∧ c.x ≤ 30) ∧ (1 ≤ c.y ∧ c.y ≤ 30)) ∧
    (∀ d : SnakeDirection,
      (0 ≤ (g.snake.newHead d).x ∧ (g.snake.newHead d).x ≤ 31) ∧
      (0 ≤ (g.snake.newHead d).y ∧ (g.snake.newHead d).y ≤ 31) ∧
      g.snake.newHead d = offsetCell g.snake.headPixel d) ∧
    (∀ c ∈ snakeCells g.snake, Pixel.Pixel c.x c.y = c) := by
  have hin := (reachable_StrongInv g h).1
  have h32 : _gridSize = 32 := rfl
  refine ⟨?_, ?_, ?_⟩
  · intro c hc
    have h1 := hin c hc
    unfold insideCell at h1
    omega
  · intro d
    obtain ⟨h1, h2, h3⟩ := newHead_of_inside g.snake d (hin _ (by simp [snakeCells]))
    refine ⟨?_, ?_, h1⟩ <;> omega
  · intro c hc
    exact Pixel_ctor_of_clamped c (clamped_of_inside c (hin c hc))

theorem snake_stays_inside_border_witness :
    Reachable gameAfterEating ∧
    ((∀ c ∈ snakeCells gameAfterEating.snake, (1 ≤ c.x ∧ c.x ≤ 30) ∧ (1 ≤ c.y ∧ c.y ≤ 30)) ∧
    (∀ d : SnakeDirection,
      (0 ≤ (gameAfterEating.snake.newHead d).x ∧ (gameAfterEating.snake.newHead d).x ≤ 31) ∧
      (0 ≤ (gameAfterEating.snake.newHead d).y ∧ (gameAfterEating.snake.newHead d).y ≤ 31) ∧
      gameAfterEating.snake.newHead d = offsetCell gameAfterEating.snake.headPixel d) ∧
    (∀ c ∈ snakeCells gameAfterEating.snake, Pixel.Pixel c.x c.y = c)) :=
  ⟨reachable_gameAfterEating, snake_stays_inside_border gameAfterEating reachable_gameAfterEating⟩

/-! ## The frozen game-over state -/

/-- A state that a finite sequence of events makes of a reachable state is reachable. -/
theorem reachable_of_run (es : List Event) :
    ∀ (g g1 : Game), Reachable g → run g es = .ok g1 → Reachable g1 := by
  induction es with
  | nil =>
    intro g g1 hg hr
    simp only [run] at hr
    injection hr with hr
    rw [← hr]; exact hg
  | cons e es ih =>
    intro g g1 hg hr
    simp only [run] at hr
    cases hs : step g e with
    | error f => rw [hs] at hr; simp at hr
    | ok g2 =>
      rw [hs] at hr
      simp only at hr
      refine ih g2 g1 ?_ hr
      cases e with
      | key k =>
        simp only [step] at hs
        injection hs with hs
        rw [← hs]; exact Reachable.key g k hg
      | tick rands => exact Reachable.tick g rands g2 hg hs

theorem run_game0_to_wall : run game0 (List.replicate 12 (Event.tick [])) = .ok gameAtWall := by
  rfl

theorem reachable_gameAtWall : Reachable gameAtWall :=
  reachable_of_run _ game0 gameAtWall reachable_game0 run_game0_to_wall

theorem reachable_gameCrashed : Reachable gameCrashed :=
  Reachable.tick gameAtWall [] gameCrashed reachable_gameAtWall tick_gameAtWall

theorem tick_of_frozen (g : Game) (rands : List Nat) (hd : g.direction = g.newDirection)
    (hgo : g.gameOver = true) (hm : (g.snake.move g.newDirection border).1 = false) :
    tick g rands = .ok g := by
  rw [tick_of_move_rejected g rands hm, move_snd_of_rejected _ _ _ hm]
  cases g with
  | mk snake berry direction newDirection gameOver =>
    simp only at hd hgo
    subst hd hgo
    rfl

/-- C19: in a reachable state with `gameOver == true` every tick and every key press leave
all the globals as they are (snake, berry, committed and pending direction, `gameOver`); the
move the tick retries is rejected again and the score stays the same. -/
theorem gameOver_state_is_frozen (g : Game) (h : Reachable g) (hgo : g.gameOver = true) :
    (∀ rands : List Nat, tick g rands = .ok g) ∧ (∀ k : SnakeDirection, keyPressed g k = g) ∧
      (g.snake.move g.newDirection border).1 = false ∧
      (g.snake.move g.newDirection border).2 = g.snake ∧
      (∀ (rands : List Nat) (g1 : Game), tick g rands = .ok g1 → score g1 = score g) := by
  obtain ⟨hd, hm⟩ := (reachable_StrongInv g h).2.2.2 hgo
  refine ⟨fun rands => tick_of_frozen g rands hd hgo hm,
    fun k => keyPressed_of_gameOver g k hgo, hm, move_snd_of_rejected _ _ _ hm, ?_⟩
  intro rands g1 ht
  rw [tick_of_frozen g rands hd hgo hm] at ht
  injection ht with ht
  rw [ht]

theorem gameOver_state_is_frozen_witness :
    (Reachable gameCrashed ∧ gameCrashed.gameOver = true) ∧
    ((∀ rands : List Nat, tick gameCrashed rands = .ok gameCrashed) ∧
      (∀ k : SnakeDirection, keyPressed gameCrashed k = gameCrashed) ∧
      (gameCrashed.snake.move gameCrashed.newDirection border).1 = false ∧
      (gameCrashed.snake.move gameCrashed.newDirection border).2 = gameCrashed.snake ∧
      (∀ (rands : List Nat) (g1 : Game), tick gameCrashed rands = .ok g1 →
        score g1 = score gameCrashed)) :=
  ⟨⟨reachable_gameCrashed, rfl⟩, gameOver_state_is_frozen gameCrashed reachable_gameCrashed rfl⟩

/-! ## The berry is never in the way -/

/-- A move from a head inside the border onto the cell ahead is accepted when that cell
lies inside the border and off the snake. -/
theorem move_onto_free_inside (s : Snake) (d : SnakeDirection)
    (hhead : insideCell s.headPixel) (hin : insideCell (offsetCell s.headPixel d))
    (hfree : s.contains (offsetCell s.headPixel d) = false) :
    (s.move d border).1 = true ∧
      (s.move d border).2 =
        { bodyPixels := (s.bodyPixels ++ [s.headPixel]).tail,
          headPixel := offsetCell s.headPixel d } := by
  have hnew := (newHead_of_inside s d hhead).1
  have hb : border.contains (s.newHead d) = false := by
    rw [hnew]
    exact border_contains_false_of_interior _ hin.1 hin.2.1 hin.2.2.1 hin.2.2.2
  have hs : s.contains (s.newHead d) = false := by rw [hnew]; exact hfree
  rw [move_of_free s d border hs hb, hnew]
  exact ⟨rfl, rfl⟩

/-- C20: in every reachable state the berry cell is not occupied by the snake and is not a
border cell; so whenever the berry is the cell directly ahead of the head in some
direction, the move in that direction is accepted and puts the head on the berry. -/
theorem berry_never_on_snake_or_border (g : Game) (h : Reachable g) :
    g.snake.contains g.berry.position = false ∧ border.contains g.berry.position = false ∧
      ∀ d : SnakeDirection, offsetCell g.snake.headPixel d = g.berry.position →
        (g.snake.move d border).1 = true ∧
          (g.snake.move d border).2.headPixel = g.berry.position := by
  obtain ⟨hin, -, hberry, -⟩ := reachable_StrongInv g h
  obtain ⟨-, -, hoff⟩ := reachable_GameInv g h
  refine ⟨hoff,
    border_contains_false_of_interior _ hberry.1 hberry.2.1 hberry.2.2.1 hberry.2.2.2, ?_⟩
  intro d hd
  have hm := move_onto_free_inside g.snake d (hin _ (by simp [snakeCells]))
    (by rw [hd]; exact hberry) (by rw [hd]; exact hoff)
  rw [hm.2]
  exact ⟨hm.1, hd⟩

theorem berry_never_on_snake_or_border_witness :
    Reachable gameBerryAhead ∧
    gameBerryAhead.snake.contains gameBerryAhead.berry.position = false ∧
    border.contains gameBerryAhead.berry.position = false ∧
    offsetCell gameBerryAhead.snake.headPixel Right = gameBerryAhead.berry.position ∧
    (gameBerryAhead.snake.move Right border).1 = true ∧
    (gameBerryAhead.snake.move Right border).2.headPixel = gameBerryAhead.berry.position :=
  ⟨reachable_gameBerryAhead,
   (berry_never_on_snake_or_border gameBerryAhead reachable_gameBerryAhead).1,
   (berry_never_on_snake_or_border gameBerryAhead reachable_gameBerryAhead).2.1,
   by decide,
   (berry_never_on_snake_or_border gameBerryAhead reachable_gameBerryAhead).2.2 Right
     (by decide)⟩

/-! ## The berry one cell ahead -/

/-- C11: in a reachable state with `gameOver == false` whose berry is the cell one step
ahead of the head in the pending direction, for every berry the spawner returns the tick
ends with `gameOver` still false, the head on the former berry cell, `getSize()` one more
than before the tick, and the new berry off the grown snake. -/
theorem tick_eats_berry_ahead (g : Game) (rands : List Nat) (b : Berry) (hr : Reachable g)
    (hgo : g.gameOver = false)
    (hahead : offsetCell g.snake.headPixel g.newDirection = g.berry.position)
    (hb : Berry.Berry (movedSnake g) rands = some b) :
    ∃ g1, tick g rands = .ok g1 ∧ g1.gameOver = false ∧
      g1.snake.headPixel = g.berry.position ∧ g1.snake.getSize = g.snake.getSize + 1 ∧
      g1.berry = b ∧ g1.snake.contains b.position = false := by
  obtain ⟨hin, -, hberry, -⟩ := reachable_StrongInv g hr
  obtain ⟨hcl, hlen, hoff⟩ := reachable_GameInv g hr
  have hm := move_onto_free_inside g.snake g.newDirection (hin _ (by simp [snakeCells]))
    (by rw [hahead]; exact hberry) (by rw [hahead]; exact hoff)
  have hhead : (movedSnake g).headPixel = g.berry.position := by
    unfold movedSnake
    rw [hm.2]
    exact hahead
  have hne : (movedSnake g).bodyPixels ≠ [] := by
    intro h0
    have h1 : (movedSnake g).bodyPixels.length = g.snake.bodyPixels.length :=
      move_body_length _ _ _
    rw [h0] at h1
    simp only [List.length_nil] at h1
    omega
  obtain ⟨s1, hg⟩ := grow_isSome_of_ne_nil _ hne
  have hcl1 : ∀ c ∈ snakeCells (movedSnake g), clampedCell c :=
    move_keeps_clamped g.snake g.newDirection border hcl
  have hsize : (movedSnake g).getSize = g.snake.getSize := by
    simp [movedSnake, Snake.getSize, move_body_length]
  refine ⟨_, tick_of_move_onto_berry g rands b s1 hm.1
    ((moved_contains_berry_iff g hoff).2 hhead) hb hg, hgo, ?_, ?_, rfl, ?_⟩
  · simp only
    rw [(grow_getSize _ s1 hg).2, hhead]
  · simp only
    rw [(grow_getSize _ s1 hg).1, hsize]
  · simp only
    rw [grow_contains _ s1 hg hcl1]
    exact (Berry_some_spec _ rands b hb).1

theorem tick_eats_berry_ahead_witness :
    (Reachable gameBerryAhead ∧ gameBerryAhead.gameOver = false ∧
      offsetCell gameBerryAhead.snake.headPixel gameBerryAhead.newDirection
        = gameBerryAhead.berry.position ∧
      Berry.Berry (movedSnake gameBerryAhead) [4, 5] = some { position := ⟨5, 6⟩ }) ∧
    ∃ g1, tick gameBerryAhead [4, 5] = .ok g1 ∧ g1.gameOver = false ∧
      g1.snake.headPixel = gameBerryAhead.berry.position ∧
      g1.snake.getSize = gameBerryAhead.snake.getSize + 1 ∧
      g1.berry = { position := ⟨5, 6⟩ } ∧
      g1.snake.contains ({ position := ⟨5, 6⟩ } : Berry).position = false :=
  ⟨⟨reachable_gameBerryAhead, rfl, by decide, by decide⟩,
   tick_eats_berry_ahead gameBerryAhead [4, 5] { position := ⟨5, 6⟩ } reachable_gameBerryAhead
     rfl (by decide) (by decide)⟩

/-! ## Marching straight towards the border -/

/-- The cell `j` steps from `p` in direction `d`. -/
def aheadCell (p : Pixel) (d : SnakeDirection) (j : Int) : Pixel :=
  match d with
  | Up => { x := p.x, y := p.y - j }
  | Down => { x := p.x, y := p.y + j }
  | Left => { x := p.x - j, y := p.y }
  | Right => { x := p.x + j, y := p.y }

/-- The distance of the specification's scenario: the number of cells between `p` and the
border cell that lies straight ahead of it in direction `d`, which is the number of moves
that fit before the border. -/
def distanceToBorder (p : Pixel) (d : SnakeDirection) : Int :=
  match d with
  | Up => p.y - 1
  | Down => _gridSize - 2 - p.y
  | Left => p.x - 1
  | Right => _gridSize - 2 - p.x

/-- A snake that can march straight in direction `d`: its cells were built by the `Pixel`
constructor, its body is not empty, its head lies inside the border and none of its cells
lies straight ahead of the head. -/
def PathClear (s : Snake) (d : SnakeDirection) : Prop :=
  (∀ c ∈ snakeCells s, clampedCell c) ∧ s.bodyPixels ≠ [] ∧ insideCell s.headPixel ∧
    ∀ j : Int, 1 ≤ j → aheadCell s.headPixel d j ∉ snakeCells s

theorem aheadCell_zero (p : Pixel) (d : SnakeDirection) : aheadCell p d 0 = p := by
  cases d <;> simp [aheadCell]

theorem aheadCell_one (p : Pixel) (d : SnakeDirection) : aheadCell p d 1 = offsetCell p d := by
  cases d <;> rfl

theorem aheadCell_offset (p : Pixel) (d : SnakeDirection) (j : Int) :
    aheadCell (offsetCell p d) d j = aheadCell p d (j + 1) := by
  cases d <;> simp only [aheadCell, offsetCell, Pixel.mk.injEq, true_and, and_true] <;> omega

theorem aheadCell_ne_offset (p : Pixel) (d : SnakeDirection) (j : Int) (hj : 1 ≤ j) :
    aheadCell p d (j + 1) ≠ offsetCell p d := by
  cases d <;> simp only [aheadCell, offsetCell, ne_eq, Pixel.mk.injEq, not_and] <;> omega

theorem distanceToBorder_offset (p : Pixel) (d : SnakeDirection) :
    distanceToBorder (offsetCell p d) d = distanceToBorder p d - 1 := by
  cases d <;> simp only [distanceToBorder, offsetCell] <;> omega

theorem offset_inside_of_distance (p : Pixel) (d : SnakeDirection) (hp : insideCell p)
    (hd : 1 ≤ distanceToBorder p d) : insideCell (offsetCell p d) := by
  unfold insideCell at hp ⊢
  cases d <;> simp only [distanceToBorder, offsetCell] at hd ⊢ <;> omega

theorem offset_on_border_of_distance (p : Pixel) (d : SnakeDirection) (hp : insideCell p)
    (hd : distanceToBorder p d = 0) : border.contains (offsetCell p d) = true := by
  unfold border
  rw [Border_contains_iff_perimeter _gridSize le_rfl]
  unfold insideCell at hp
  unfold isPerimeter
  have h32 : _gridSize = 32 := rfl
  cases d <;> simp only [distanceToBorder, offsetCell] at hd ⊢ <;> omega

/-- With at least one cell before the border, the move straight ahead is accepted and
leaves a snake that can go on marching, one cell nearer to the border. -/
theorem PathClear_move (s : Snake) (d : SnakeDirection) (h : PathClear s d)
    (hd : 1 ≤ distanceToBorder s.headPixel d) :
    (s.move d border).1 = true ∧ PathClear (s.move d border).2 d ∧
      (s.move d border).2.headPixel = offsetCell s.headPixel d := by
  obtain ⟨hcl, hne, hhead, hfree⟩ := h
  have hfree1 : s.contains (offsetCell s.headPixel d) = false := by
    rw [← Bool.not_eq_true, Snake_contains_iff_mem_cells, ← aheadCell_one]
    exact hfree 1 le_rfl
  have hin := offset_inside_of_distance _ d hhead hd
  obtain ⟨hm, heq⟩ := move_onto_free_inside s d hhead hin hfree1
  have hheadeq : (s.move d border).2.headPixel = offsetCell s.headPixel d := by rw [heq]
  refine ⟨hm, ⟨move_keeps_clamped s d border hcl, ?_, ?_, ?_⟩, hheadeq⟩
  · intro h0
    have h1 := move_body_length s d border
    rw [h0] at h1
    simp only [List.length_nil] at h1
    exact hne (List.length_eq_zero.1 h1.symm)
  · rw [hheadeq]; exact hin
  · intro j hj hmem
    rw [hheadeq, aheadCell_offset] at hmem
    rw [snakeCells, List.mem_cons] at hmem
    rcases hmem with hmem | hmem
    · rw [hheadeq] at hmem
      exact aheadCell_ne_offset _ d j hj hmem
    · exact hfree (j + 1) (by omega) (move_body_subset s d border _ hmem)

theorem PathClear_grow (s s1 : Snake) (d : SnakeDirection) (h : PathClear s d)
    (hg : s.grow = some s1) : PathClear s1 d ∧ s1.headPixel = s.headPixel := by
  obtain ⟨hcl, -, hhead, hfree⟩ := h
  have hcells := grow_cells s s1 hg hcl
  have hh := (grow_getSize s s1 hg).2
  refine ⟨⟨fun c hc => hcl c ((hcells c).1 hc), ?_, by rw [hh]; exact hhead, ?_⟩, hh⟩
  · obtain ⟨front, rest, -, rfl⟩ := (grow_eq_some_iff s s1).1 hg
    simp
  · intro j hj hmem
    rw [hh, hcells] at hmem
    exact hfree j hj hmem

theorem PathClear_blocked (s : Snake) (d : SnakeDirection) (h : PathClear s d)
    (hd : distanceToBorder s.headPixel d = 0) : (s.move d border).1 = false := by
  obtain ⟨-, -, hhead, -⟩ := h
  rw [move_fst_false_iff]
  right
  rw [(newHead_of_inside s d hhead).1]
  exact offset_on_border_of_distance _ d hhead hd

/-- A running game whose pending direction is `d` and whose snake can march in
direction `d`. -/
def Marching (d : SnakeDirection) (g : Game) : Prop :=
  g.gameOver = false ∧ g.newDirection = d ∧ PathClear g.snake d

theorem Marching_tick (d : SnakeDirection) (g : Game) (rands : List Nat) (g1 : Game)
    (h : Marching d g) (hd : 1 ≤ distanceToBorder g.snake.headPixel d)
    (ht : tick g rands = .ok g1) :
    Marching d g1 ∧ g1.snake.headPixel = offsetCell g.snake.headPixel d := by
  obtain ⟨hgo, hdir, hpath⟩ := h
  obtain ⟨hm, hpath1, hhead1⟩ := PathClear_move g.snake d hpath hd
  rw [← hdir] at hm hpath1 hhead1
  rcases tick_ok_cases g rands g1 ht with ⟨hm0, -⟩ | ⟨-, -, rfl⟩ | ⟨-, -, b, s1, -, hg, rfl⟩
  · rw [hm] at hm0
    exact absurd hm0 (by simp)
  · rw [hdir] at hpath1 hhead1 ⊢
    exact ⟨⟨hgo, rfl, hpath1⟩, hhead1⟩
  · obtain ⟨hp2, hh2⟩ := PathClear_grow _ s1 g.newDirection hpath1 hg
    rw [hdir] at hp2 hhead1
    refine ⟨⟨hgo, hdir, hp2⟩, ?_⟩
    simp only
    rw [hh2, hdir]
    exact hhead1

theorem Marching_crash (d : SnakeDirection) (g : Game) (rands : List Nat) (h : Marching d g)
    (hd : distanceToBorder g.snake.headPixel d = 0) :
    (g.snake.move g.newDirection border).1 = false ∧
      tick g rands = .ok { g with direction := g.newDirection, gameOver := true } := by
  obtain ⟨-, hdir, hpath⟩ := h
  have hm := PathClear_blocked g.snake d hpath hd
  rw [← hdir] at hm
  refine ⟨hm, ?_⟩
  rw [tick_of_move_rejected g rands hm, move_snd_of_rejected _ _ _ hm]

theorem Marching_run (d : SnakeDirection) :
    ∀ (rs : List (List Nat)) (g g1 : Game), Marching d g →
      (rs.length : Int) ≤ distanceToBorder g.snake.headPixel d →
      run g (rs.map Event.tick) = .ok g1 →
      Marching d g1 ∧ g1.snake.headPixel = aheadCell g.snake.headPixel d rs.length ∧
        distanceToBorder g1.snake.headPixel d
          = distanceToBorder g.snake.headPixel d - rs.length := by
  intro rs
  induction rs with
  | nil =>
    intro g g1 h _ hr
    simp only [List.map_nil, run] at hr
    injection hr with hr
    subst hr
    simp only [List.length_nil, Nat.cast_zero, aheadCell_zero, sub_zero]
    exact ⟨h, trivial, trivial⟩
  | cons r rs ih =>
    intro g g1 h hlen hr
    simp only [List.length_cons, Nat.cast_add, Nat.cast_one] at hlen ⊢
    simp only [List.map_cons, run, step] at hr
    cases ht : tick g r with
    | error f => rw [ht] at hr; simp at hr
    | ok g2 =>
      rw [ht] at hr
      simp only at hr
      obtain ⟨hm2, hh2⟩ := Marching_tick d g r g2 h (by omega) ht
      have hd2 : distanceToBorder g2.snake.headPixel d
          = distanceToBorder g.snake.headPixel d - 1 := by
        rw [hh2, distanceToBorder_offset]
      obtain ⟨hm1, hh1, hd1⟩ := ih g2 g1 hm2 (by omega) hr
      refine ⟨hm1, ?_, by omega⟩
      rw [hh1, hh2, aheadCell_offset]

/-- A tick ends whenever the body is not empty and the spawner, should the tick call it,
ends on the given values. -/
theorem tick_ends_of_spawn_ends (g : Game) (rands : List Nat) (hne : g.snake.bodyPixels ≠ [])
    (hb : (Berry.Berry (movedSnake g) rands).isSome = true) : ∃ g1, tick g rands = .ok g1 := by
  cases hm : (g.snake.move g.newDirection border).1
  · exact ⟨_, tick_of_move_rejected g rands hm⟩
  · cases hc : (movedSnake g).contains g.berry.position
    · exact ⟨_, tick_of_move_away g rands hm hc⟩
    · obtain ⟨b, hb1⟩ := Option.isSome_iff_exists.1 hb
      have hne1 : (movedSnake g).bodyPixels ≠ [] := by
        intro h0
        have h1 : (movedSnake g).bodyPixels.length = g.snake.bodyPixels.length :=
          move_body_length _ _ _
        rw [h0] at h1
        simp only [List.length_nil] at h1
        exact hne (List.length_eq_zero.1 h1.symm)
      obtain ⟨s1, hg⟩ := grow_isSome_of_ne_nil _ hne1
      exact ⟨_, tick_of_move_onto_berry g rands b s1 hm hc hb1 hg⟩

/-- The outcome of marching: after at most `distance` ticks without key presses the game
still runs and the head has advanced one cell per tick; while cells remain before the
border the next move is accepted; after exactly `distance` ticks the next move is rejected
and the next tick sets `gameOver`, leaving the snake as it is. -/
theorem Marching_run_outcome (d : SnakeDirection) (g : Game) (h : Marching d g)
    (rs : List (List Nat)) (g1 : Game)
    (hlen : (rs.length : Int) ≤ distanceToBorder g.snake.headPixel d)
    (hr : run g (rs.map Event.tick) = .ok g1) :
    g1.gameOver = false ∧ g1.snake.headPixel = aheadCell g.snake.headPixel d rs.length ∧
      (∀ r, (Berry.Berry (movedSnake g1) r).isSome = true → ∃ g2, tick g1 r = .ok g2) ∧
      ((rs.length : Int) < distanceToBorder g.snake.headPixel d →
        (g1.snake.move g1.newDirection border).1 = true) ∧
      ((rs.length : Int) = distanceToBorder g.snake.headPixel d → ∀ r,
        (g1.snake.move g1.newDirection border).1 = false ∧
          tick g1 r = .ok { g1 with direction := g1.newDirection, gameOver := true }) := by
  obtain ⟨hm1, hh1, hd1⟩ := Marching_run d rs g g1 h hlen hr
  refine ⟨hm1.1, hh1, ?_, ?_, ?_⟩
  · intro r hb
    exact tick_ends_of_spawn_ends g1 r hm1.2.2.2.1 hb
  · intro hlt
    rw [hm1.2.1]
    exact (PathClear_move g1.snake d hm1.2.2 (by omega)).1
  · intro heq r
    exact Marching_crash d g1 r hm1 (by omega)

theorem Snake_ctor_five :
    Snake.Snake _snakeSize =
      { bodyPixels := [⟨14, 15⟩, ⟨15, 15⟩, ⟨16, 15⟩, ⟨17, 15⟩], headPixel := ⟨18, 15⟩ } := by
  decide

theorem Marching_initial (r0 : List Nat) (g0 : Game) (h : initialGame r0 = some g0) :
    Marching Right g0 ∧ g0.snake.headPixel = ⟨18, 15⟩ ∧ g0.direction = Right ∧
      distanceToBorder g0.snake.headPixel Right = 12 := by
  obtain ⟨hd, hn, hgo, hs, -⟩ := initialGame_directions r0 g0 h
  rw [Snake_ctor_five] at hs
  refine ⟨⟨hgo, hn, ?_⟩, by rw [hs], hd, by rw [hs]; rfl⟩
  rw [hs]
  refine ⟨?_, by decide, ?_, ?_⟩
  · unfold clampedCell; decide
  · unfold insideCell; decide
  · intro j hj
    simp only [aheadCell, snakeCells, List.mem_cons, Pixel.mk.injEq, List.mem_singleton,
      List.not_mem_nil, or_false, and_true, not_or]
    omega

/-- C12: from the initial state (head at (18,15), direction Right, 12 cells before the right
border column) and without key presses, for every outcome of berry spawning: after each of
the first 12 ticks `gameOver` is false and the head has advanced one cell, to (30,15) after
the 12th; each of these ticks ends when the spawner does; the 13th move is rejected and the
13th tick sets `gameOver` and leaves the snake unchanged.  In general, for a running game
whose snake has a free straight path in the pending direction, the first `distance` moves
are accepted and the `(distance+1)`th is the first one rejected. -/
theorem march_right_to_the_border :
    (∀ (r0 : List Nat) (g0 : Game), initialGame r0 = some g0 →
      g0.snake.headPixel = ⟨18, 15⟩ ∧ g0.direction = Right ∧
      distanceToBorder g0.snake.headPixel Right = 12 ∧
      ∀ (rs : List (List Nat)) (g : Game), rs.length ≤ 12 →
        run g0 (rs.map Event.tick) = .ok g →
        g.gameOver = false ∧ g.snake.headPixel = ⟨18 + (rs.length : Int), 15⟩ ∧
        (∀ r, (Berry.Berry (movedSnake g) r).isSome = true → ∃ g1, tick g r = .ok g1) ∧
        (rs.length < 12 → (g.snake.move g.newDirection border).1 = true) ∧
        (rs.length = 12 → ∀ r,
          (g.snake.move g.newDirection border).1 = false ∧
            tick g r = .ok { g with direction := g.newDirection, gameOver := true })) ∧
    (∀ (d : SnakeDirection) (g : Game), g.gameOver = false → g.newDirection = d →
      PathClear g.snake d →
      ∀ (rs : List (List Nat)) (g1 : Game),
        (rs.length : Int) ≤ distanceToBorder g.snake.headPixel d →
        run g (rs.map Event.tick) = .ok g1 →
        g1.gameOver = false ∧ g1.snake.headPixel = aheadCell g.snake.headPixel d rs.length ∧
        ((rs.length : Int) < distanceToBorder g.snake.headPixel d →
          (g1.snake.move g1.newDirection border).1 = true) ∧
        ((rs.length : Int) = distanceToBorder g.snake.headPixel d → ∀ r,
          (g1.snake.move g1.newDirection border).1 = false ∧
            tick g1 r = .ok { g1 with direction := g1.newDirection, gameOver := true })) := by
  constructor
  · intro r0 g0 h0
    obtain ⟨hm, hhead, hdir, hdist⟩ := Marching_initial r0 g0 h0
    refine ⟨hhead, hdir, hdist, ?_⟩
    intro rs g hlen hr
    obtain ⟨h1, h2, h3, h4, h5⟩ :=
      Marching_run_outcome Right g0 hm rs g (by rw [hdist]; omega) hr
    rw [hdist] at h4 h5
    refine ⟨h1, ?_, h3, fun hlt => h4 (by omega), fun heq => h5 (by omega)⟩
    rw [h2, hhead]
    rfl
  · intro d g hgo hdir hpath rs g1 hlen hr
    obtain ⟨h1, h2, -, h4, h5⟩ := Marching_run_outcome d g ⟨hgo, hdir, hpath⟩ rs g1 hlen hr
    exact ⟨h1, h2, h4, h5⟩

/-- The state `game2` after 13 ticks without key presses: the head stands right below the
top border row. -/
def gameAtTop : Game :=
  { snake := { bodyPixels := [⟨19, 5⟩, ⟨19, 4⟩, ⟨19, 3⟩, ⟨19, 2⟩], headPixel := ⟨19, 1⟩ }
    berry := { position := ⟨2, 3⟩ }
    direction := Up, newDirection := Up, gameOver := false }

theorem run_game2_to_top :
    run game2 ((List.replicate 13 ([] : List Nat)).map Event.tick) = .ok gameAtTop := by rfl

theorem PathClear_game2 : PathClear game2.snake Up := by
  refine ⟨?_, by decide, ?_, ?_⟩
  · unfold clampedCell; decide
  · unfold insideCell; decide
  · intro j hj
    simp only [game2, aheadCell, snakeCells, List.mem_cons, Pixel.mk.injEq, List.mem_singleton,
      List.not_mem_nil, or_false, true_and, not_or]
    omega

theorem march_right_to_the_border_witness :
    (initialGame [1, 2] = some game0 ∧ (List.replicate 12 ([] : List Nat)).length ≤ 12 ∧
      run game0 ((List.replicate 12 ([] : List Nat)).map Event.tick) = .ok gameAtWall ∧
      (List.replicate 12 ([] : List Nat)).length = 12) ∧
    (gameAtWall.gameOver = false ∧ gameAtWall.snake.headPixel = ⟨30, 15⟩ ∧
      (gameAtWall.snake.move gameAtWall.newDirection border).1 = false ∧
      tick gameAtWall [] = .ok gameCrashed) ∧
    (game2.gameOver = false ∧ game2.newDirection = Up ∧ PathClear game2.snake Up ∧
      ((List.replicate 13 ([] : List Nat)).length : Int)
        = distanceToBorder game2.snake.headPixel Up ∧
      run game2 ((List.replicate 13 ([] : List Nat)).map Event.tick) = .ok gameAtTop) ∧
    (gameAtTop.gameOver = false ∧ gameAtTop.snake.headPixel = ⟨19, 1⟩ ∧
      (gameAtTop.snake.move gameAtTop.newDirection border).1 = false ∧
      tick gameAtTop [] = .ok { gameAtTop with direction := Up, gameOver := true }) :=
  have hA := (march_right_to_the_border.1 [1, 2] game0 initialGame_game0).2.2.2
    (List.replicate 12 ([] : List Nat)) gameAtWall (by decide) run_game0_to_wall
  have hB := march_right_to_the_border.2 Up game2 rfl rfl PathClear_game2
    (List.replicate 13 ([] : List Nat)) gameAtTop (by decide) run_game2_to_top
  ⟨⟨initialGame_game0, by decide, run_game0_to_wall, by decide⟩,
   ⟨hA.1, hA.2.1, (hA.2.2.2.2 (by decide) []).1, (hA.2.2.2.2 (by decide) []).2⟩,
   ⟨rfl, rfl, PathClear_game2, by decide, run_game2_to_top⟩,
   ⟨hB.1, hB.2.1, (hB.2.2.2 (by decide) []).1, (hB.2.2.2 (by decide) []).2⟩⟩

/-- The state `gameBerryAhead` after 5 ticks without key presses, the first of which eats
the berry (and `rand()` gives 4 and 5 to the spawner). -/
def gameFiveTicks : Game :=
  { snake := { bodyPixels := [⟨18, 15⟩, ⟨19, 15⟩, ⟨20, 15⟩, ⟨21, 15⟩, ⟨22, 15⟩],
               headPixel := ⟨23, 15⟩ }
    berry := { position := ⟨5, 6⟩ }
    direction := Right, newDirection := Right, gameOver := false }

theorem run_gameBerryAhead_five :
    run gameBerryAhead ([[4, 5], [], [], [], []].map Event.tick) = .ok gameFiveTicks := by rfl

/-- C13: from the initial state (snake built by `Snake(5)`, committed and pending direction
Right) and without key presses, `gameOver` is false after each of the first 5 ticks, for
every outcome of berry spawning; each of the 5 moves is accepted (no self collision, no
border collision) and each tick ends when the spawner does. -/
theorem five_ticks_right_keep_running (r0 : List Nat) (g0 : Game)
    (h0 : initialGame r0 = some g0) (rs : List (List Nat)) (g : Game) (hlen : rs.length ≤ 5)
    (hr : run g0 (rs.map Event.tick) = .ok g) :
    g0.snake = Snake.Snake 5 ∧ g0.direction = Right ∧ g0.newDirection = Right ∧
      g.gameOver = false ∧
      (rs.length < 5 → (g.snake.move g.newDirection border).1 = true ∧
        ∀ r, (Berry.Berry (movedSnake g) r).isSome = true → ∃ g1, tick g r = .ok g1) := by
  obtain ⟨hd, hn, -, hs, -⟩ := initialGame_directions r0 g0 h0
  obtain ⟨hm, -, -, hdist⟩ := Marching_initial r0 g0 h0
  obtain ⟨h1, -, h3, h4, -⟩ :=
    Marching_run_outcome Right g0 hm rs g (by rw [hdist]; omega) hr
  exact ⟨hs, hd, hn, h1, fun _ => ⟨h4 (by rw [hdist]; omega), h3⟩⟩

theorem five_ticks_right_keep_running_witness :
    (initialGame [18, 14] = some gameBerryAhead ∧
      ([[4, 5], [], [], [], []] : List (List Nat)).length ≤ 5 ∧
      run gameBerryAhead ([[4, 5], [], [], [], []].map Event.tick) = .ok gameFiveTicks) ∧
    gameFiveTicks.gameOver = false ∧
    (initialGame [18, 14] = some gameBerryAhead ∧ ([] : List (List Nat)).length < 5 ∧
      run gameBerryAhead (([] : List (List Nat)).map Event.tick) = .ok gameBerryAhead) ∧
    (gameBerryAhead.snake.move gameBerryAhead.newDirection border).1 = true ∧
    (∃ g1, tick gameBerryAhead [4, 5] = .ok g1) :=
  ⟨⟨by decide, by decide, run_gameBerryAhead_five⟩,
   (five_ticks_right_keep_running [18, 14] gameBerryAhead (by decide) [[4, 5], [], [], [], []]
      gameFiveTicks (by decide) run_gameBerryAhead_five).2.2.2.1,
   ⟨by decide, by decide, rfl⟩,
   ((five_ticks_right_keep_running [18, 14] gameBerryAhead (by decide) [] gameBerryAhead
      (by decide) rfl).2.2.2.2 (by decide)).1,
   ((five_ticks_right_keep_running [18, 14] gameBerryAhead (by decide) [] gameBerryAhead
      (by decide) rfl).2.2.2.2 (by decide)).2 [4, 5] (by decide)⟩
